import Mathlib

/-!
Verification of the capture/match/restore engine of `window_layout.py`
(win-remember-me).  Python dict records are embedded as Lean structures,
the matching / tab-assignment / placement functions are translated
directly from the source, and the testable properties of the spec are
settled as theorems.  Floating-point token-overlap ratios are embedded as
exact rationals; the 0.3 / 0.4 thresholds are far from any ratio of small
token counts, so the embedding agrees with the double-precision source on
all realistic inputs.
-/

namespace WinLayout

/-- A stored Edge tab entry `{title, url}` (element of `edge_tabs`). -/
structure TabEntry where
  title : String := ""
  url : String := ""
deriving Repr, DecidableEq, Inhabited

/-- A CDP-fetched tab as produced by `_fetch_cdp_tabs`: `{title, url, window_id}`
where `window_id` is `None` when Edge reported no valid id. -/
structure TabIn where
  title : String := ""
  url : String := ""
  window_id : Option Int := none
deriving Repr, DecidableEq, Inhabited

/-- The `edge` metadata dict stored on captured Edge windows. -/
structure EdgeMeta where
  user_data_dir : String := ""
  profile_directory : String := ""
  cdp_window_id : Int := 0
  debug_port : Int := 0
deriving Repr, DecidableEq, Inhabited

/-- A window record.  Captured snapshot entries, saved layout targets and
live-window snapshots all use the same dict shape in the source (keys are
simply absent / defaulted), so one structure serves for all of them.
`hwnd` is only meaningful on live windows (0 elsewhere). -/
structure Win where
  window_id : String := ""
  title : String := ""
  class_name : String := ""
  process_name : String := ""
  exe : String := ""
  rect : List Int := []
  normal_rect : List Int := []
  restore_rect : List Int := []
  show_cmd : Int := 1
  is_snapped : Bool := false
  z_order : Int := 9999
  edge : Option EdgeMeta := none
  edge_tabs : List TabEntry := []
  destructive : Bool := false
  hwnd : Int := 0
deriving Repr, DecidableEq

instance : Inhabited Win := ⟨{}⟩

/-- `SCHEMA = "window-layout"` (module constant). -/
def SCHEMA : String := "window-layout"

/-- `_BLOCKED_PROC` exclusion set. -/
def _BLOCKED_PROC : List String :=
  ["textinputhost.exe", "applicationframehost.exe", "shellhost.exe",
   "startmenuexperiencehost.exe", "searchhost.exe", "searchapp.exe",
   "lockapp.exe", "systemsettings.exe", "dwm.exe", "fontdrvhost.exe",
   "rtkuwp.exe"]

/-- `_BLOCKED_CLASS` exclusion set. -/
def _BLOCKED_CLASS : List String :=
  ["windows.ui.core.corewindow", "applicationframewindow", "progman", "workerw"]

/-- `str.lower()` (char-by-char, kernel-reducible form). -/
def sLower (s : String) : String := ⟨s.data.map Char.toLower⟩

/-- Strip leading and trailing whitespace from a char list. -/
def trimChars (cs : List Char) : List Char :=
  ((cs.dropWhile Char.isWhitespace).reverse.dropWhile Char.isWhitespace).reverse

/-- `str.strip()`. -/
def sTrim (s : String) : String := ⟨trimChars s.data⟩

/-- Take the first `n` characters (`s[:n]`). -/
def sTake (s : String) (n : Nat) : String := ⟨s.data.take n⟩

/-- Drop the first `n` characters (`s[n:]`). -/
def sDrop (s : String) (n : Nat) : String := ⟨s.data.drop n⟩

/-- Contiguous-sublist test on char lists (Python `a in b` semantics:
true for the empty needle). -/
def pyInChars (a : List Char) : List Char → Bool
  | [] => a.isEmpty
  | c :: cs => a.isPrefixOf (c :: cs) || pyInChars a cs

/-- Python substring test `a in b`. -/
def pyIn (a b : String) : Bool := pyInChars a.data b.data

/-- `str.split()` with no separator: split on runs of whitespace,
dropping empty chunks.  `acc` holds the current word reversed. -/
def splitWsAux : List Char → List Char → List String
  | [], acc => if acc.isEmpty then [] else [⟨acc.reverse⟩]
  | c :: cs, acc =>
    if c.isWhitespace then
      if acc.isEmpty then splitWsAux cs [] else (⟨acc.reverse⟩ : String) :: splitWsAux cs []
    else splitWsAux cs (c :: acc)

/-- `set(s.split())` — whitespace-separated tokens with set semantics,
kept as a duplicate-free list. -/
def pyTokens (s : String) : List String := (splitWsAux s.data []).dedup

/-- Token-set Jaccard `len(a & b) / max(len(a | b), 1)` on duplicate-free
token lists, as an exact rational. -/
def jaccardToks (a b : List String) : ℚ :=
  mkRat (a.filter fun t => t ∈ b).length (max ((a ++ b).dedup).length 1)

/-- `_is_close_rect(a, b, thr)`: all four edges within `thr`. -/
def _is_close_rect (a b : List Int) (thr : Nat) : Bool :=
  (List.range 4).all fun i => (a.getD i 0 - b.getD i 0).natAbs ≤ thr

/-- `_rects_intersect(a, b)` on 4-element (left, top, right, bottom) lists. -/
def _rects_intersect (a b : List Int) : Bool :=
  !(a.getD 2 0 ≤ b.getD 0 0 || a.getD 0 0 ≥ b.getD 2 0 ||
    a.getD 3 0 ≤ b.getD 1 0 || a.getD 1 0 ≥ b.getD 3 0)

/-- `target.get("normal_rect") or target.get("rect") or ()` — the Python
`or` chain treats an empty list as absent. -/
def scoreRect (w : Win) : List Int :=
  if w.normal_rect ≠ [] then w.normal_rect else w.rect

/-- The named score components dict built by `_score` (`class` is a Lean
keyword, embedded as `cls`). -/
structure ScoreComps where
  exe : Nat := 0
  process : Nat := 0
  cls : Nat := 0
  title : Nat := 0
  geometry : Nat := 0
  edge_title_deweighted : Nat := 0
deriving Repr, DecidableEq, Inhabited

/-- The `exeC` component of `_score`: +50 on case-insensitive equality of
non-empty exe paths. -/
def exeComp (candidate target : Win) : Nat :=
  if sLower target.exe ≠ "" ∧ sLower candidate.exe ≠ "" ∧
      sLower target.exe = sLower candidate.exe then 50 else 0

/-- The `procC` component of `_score`: +25 on process-name equality. -/
def procComp (candidate target : Win) : Nat :=
  if sLower target.process_name ≠ "" ∧ sLower candidate.process_name ≠ "" ∧
      sLower target.process_name = sLower candidate.process_name then 25 else 0

/-- The `clsC` component of `_score`: +15 on class-name equality. -/
def clsComp (candidate target : Win) : Nat :=
  if sLower target.class_name ≠ "" ∧ sLower candidate.class_name ≠ "" ∧
      sLower target.class_name = sLower candidate.class_name then 15 else 0

/-- The `titleC` component of `_score`: for the reference browser target,
a +8 nudge above 0.4 token overlap; otherwise exact +40, substring either
direction +15. -/
def titleComp (candidate target : Win) : Nat :=
  let t_title := sLower target.title
  let c_title := sLower candidate.title
  if sLower target.process_name = "msedge.exe" then
    if mkRat 2 5 ≤ jaccardToks (pyTokens t_title) (pyTokens c_title) then 8 else 0
  else if t_title ≠ "" ∧ c_title ≠ "" then
    if t_title = c_title then 40
    else if pyIn t_title c_title ∨ pyIn c_title t_title then 15
    else 0
  else 0

/-- The `geoC` component of `_score`: +30 within 40px on all edges, else
+15 within 120px. -/
def geoComp (candidate target : Win) : Nat :=
  if (scoreRect target).length = 4 ∧ (scoreRect candidate).length = 4 then
    if _is_close_rect (scoreRect candidate) (scoreRect target) 40 then 30
    else if _is_close_rect (scoreRect candidate) (scoreRect target) 120 then 15
    else 0
  else 0

/-- `_score(candidate, target)`: weighted additive match score (the
components are split into the named functions above, one per local of
the source). -/
def _score (candidate target : Win) : Nat × ScoreComps :=
  let exeC := exeComp candidate target
  let procC := procComp candidate target
  let clsC := clsComp candidate target
  let titleC := titleComp candidate target
  let geoC := geoComp candidate target
  let deweight : Nat := if sLower target.process_name = "msedge.exe" then 1 else 0
  let total := exeC + procC + clsC + titleC + geoC
  (total, { exe := exeC, process := procC, cls := clsC, title := titleC,
            geometry := geoC, edge_title_deweighted := deweight })

/-- Fuel-driven non-overlapping left-to-right replacement on char lists
(`str.replace`); the fuel `n` starts at the text length, which suffices
because every step consumes at least one character of the text. -/
def replaceAllAux : Nat → List Char → List Char → List Char → List Char
  | 0, s, _, _ => s
  | _ + 1, [], _, _ => []
  | n + 1, c :: cs, pat, rep =>
    if pat.isPrefixOf (c :: cs) then rep ++ replaceAllAux n ((c :: cs).drop pat.length) pat rep
    else c :: replaceAllAux n cs pat rep

/-- `s.replace(pat, rep)` for a non-empty pattern. -/
def sReplace (s pat rep : String) : String :=
  if pat.data.isEmpty then s else ⟨replaceAllAux s.data.length s.data pat.data rep.data⟩

/-- `low.rfind(pat)`: character index of the last occurrence of `pat` in
`s`, or `none` (Python returns -1, but the caller guards with `pat in low`). -/
def rfindSub (s pat : String) : Option Nat :=
  ((List.range (s.length + 1)).filter fun i => pat.data.isPrefixOf (s.data.drop i)).getLast?

/-- `_strip_edge_suffix(title)`: normalise the zero-width-space variant,
then repeatedly cut at the last occurrence of each Edge title suffix
marker, finally strip and lowercase. -/
def _strip_edge_suffix (title : String) : String :=
  let s0 := sTrim (sReplace title "Microsoft\u200b Edge" "Microsoft Edge")
  let step := fun (s : String) (m : String) =>
    match rfindSub (sLower s) m with
    | some i => sTake s i
    | none => s
  sLower (sTrim ([" - work - microsoft edge", " - personal - microsoft edge",
                  " - microsoft edge"].foldl step s0))

/-- A tab's CDP windowId when it is a valid positive integer, else `none`
(`isinstance(wid, int) and wid > 0`). -/
def posWid (t : TabIn) : Option Int :=
  match t.window_id with
  | some w => if 0 < w then some w else none
  | none => none

/-- Insertion into an ascending list of ints. -/
def insertSorted (x : Int) : List Int → List Int
  | [] => [x]
  | y :: ys => if x ≤ y then x :: y :: ys else y :: insertSorted x ys

/-- Ascending insertion sort. -/
def sortInts (l : List Int) : List Int := l.foldr insertSorted []

/-- The keys of `by_wid` in the order `sorted(by_wid.items())` visits
them: the distinct valid windowIds, ascending. -/
def widKeys (tabs : List TabIn) : List Int := sortInts (tabs.filterMap posWid).dedup

/-- The `by_wid[wd]` group: tabs with that valid windowId, in input order. -/
def widGroup (tabs : List TabIn) (wd : Int) : List TabIn :=
  tabs.filter fun t => posWid t = some wd

/-- The `no_wid` list: tabs with no valid windowId, in input order. -/
def noWid (tabs : List TabIn) : List TabIn := tabs.filter fun t => posWid t = none

/-- `int((w.get("edge") or {}).get("cdp_window_id", 0) or 0)`. -/
def winHint (w : Win) : Int :=
  match w.edge with
  | some m => m.cdp_window_id
  | none => 0

/-- `hint_map[wd]`: the index of the window holding hint `wd`; built by a
forward pass storing `hint_map[hint] = w`, so the LAST window with that
(positive) hint wins. -/
def hintIdx (wins : List Win) (wd : Int) : Option Nat :=
  ((List.range wins.length).filter fun i =>
      0 < winHint (wins.getD i default) ∧ winHint (wins.getD i default) = wd).getLast?

/-- `_best_title_match(tab_title)`: the unassigned window whose
suffix-stripped title has the strictly best token overlap with the tab
title, accepted only at overlap ≥ 0.3. -/
def bestTitleMatch (wins : List Win) (assigned : List Nat) (tabTitle : String) : Option Nat :=
  let tt := _strip_edge_suffix tabTitle
  let ttToks := pyTokens tt
  let step := fun (acc : Option Nat × ℚ) (i : Nat) =>
    if i ∈ assigned then acc
    else
      let wt := _strip_edge_suffix (wins.getD i default).title
      let wtToks := pyTokens wt
      if ttToks = [] ∨ wtToks = [] then acc
      else
        let ov := jaccardToks ttToks wtToks
        if acc.2 < ov then (some i, ov) else acc
  let res := (List.range wins.length).foldl step (none, 0)
  if mkRat 3 10 ≤ res.2 then res.1 else none

/-- Step 1 of `_pick`: the `cdp_window_id` hint — only for a truthy
`cdp_wid` present in `hint_map`, and only while that window is
unclaimed (otherwise fall through, not fail). -/
def pickHint (wins : List Win) (assigned : List Nat) (cdpWid : Option Int) : Option Nat :=
  match cdpWid with
  | some wd =>
    if wd ≠ 0 then
      match hintIdx wins wd with
      | some i => if i ∈ assigned then none else some i
      | none => none
    else none
  | none => none

/-- Step 2 of `_pick`: the first tab of the group with a title match. -/
def pickTitle (wins : List Win) (assigned : List Nat) (group : List TabIn) : Option Nat :=
  group.findSome? fun tab => bestTitleMatch wins assigned tab.title

/-- Step 3 of `_pick`: the first window not yet assigned. -/
def pickFirstFree (wins : List Win) (assigned : List Nat) : Option Nat :=
  (List.range wins.length).find? fun i => i ∉ assigned

/-- `_pick(candidate_tabs, cdp_wid)`: hint match, then title overlap over
the group, then first unassigned window. -/
def pick (wins : List Win) (assigned : List Nat) (group : List TabIn)
    (cdpWid : Option Int) : Option Nat :=
  match pickHint wins assigned cdpWid with
  | some i => some i
  | none =>
    match pickTitle wins assigned group with
    | some i => some i
    | none => pickFirstFree wins assigned

/-- `w["edge_tabs"] = []`. -/
def clearTabs (w : Win) : Win := { w with edge_tabs := [] }

/-- Replace the window at index `i` (identity when out of range). -/
def setAt : List Win → Nat → (Win → Win) → List Win
  | [], _, _ => []
  | w :: ws, 0, f => f w :: ws
  | w :: ws, n + 1, f => w :: setAt ws n f

/-- The `{title, url}` record appended to `edge_tabs` for a tab. -/
def tabEntry (t : TabIn) : TabEntry := { title := t.title, url := t.url }

/-- The per-window update of the grouped-tab loop: stamp the CDP hint
(`w["edge"]["cdp_window_id"] = cdp_wid`, only when the `edge` dict is
present) and extend `edge_tabs` with the whole group. -/
def groupUpd (wd : Int) (group : List TabIn) (w : Win) : Win :=
  let w := match w.edge with
    | some m => { w with edge := some { m with cdp_window_id := wd } }
    | none => w
  { w with edge_tabs := w.edge_tabs ++ group.map tabEntry }

/-- Append one tab entry to a window (`w["edge_tabs"].append(...)`). -/
def appendTab (tab : TabIn) (w : Win) : Win :=
  { w with edge_tabs := w.edge_tabs ++ [tabEntry tab] }

/-- One step of the grouped-tab loop: pick a window for the group keyed
`wd`, record the hint, extend its `edge_tabs`, mark it assigned; a group
no window could be picked for is skipped (`continue`). -/
def groupStep (wins : List Win) (tabs : List TabIn) (st : List Win × List Nat)
    (wd : Int) : List Win × List Nat :=
  match pick wins st.2 (widGroup tabs wd) (some wd) with
  | none => st
  | some i => (setAt st.1 i (groupUpd wd (widGroup tabs wd)), st.2 ++ [i])

/-- One step of the ungrouped-tab loop: title match first (against the
group-phase `assigned` set), else round-robin on the counter `rr`. -/
def noWidStep (wins : List Win) (assigned : List Nat) (st : List Win × Nat)
    (tab : TabIn) : List Win × Nat :=
  match bestTitleMatch wins assigned tab.title with
  | some i => (setAt st.1 i (appendTab tab), st.2)
  | none => (setAt st.1 (st.2 % wins.length) (appendTab tab), st.2 + 1)

/-- `_assign_tabs(edge_windows, tabs)`: distribute CDP tabs across saved
Edge windows (functional form of the in-place mutation; window identity
is positional).  Lookup structures (`hint_map`, titles) are built from
the input list, as in the source. -/
def _assign_tabs (wins : List Win) (tabs : List TabIn) : List Win :=
  if wins = [] ∨ tabs = [] then wins
  else
    let st1 := (widKeys tabs).foldl (groupStep wins tabs) (wins.map clearTabs, [])
    ((noWid tabs).foldl (noWidStep wins st1.2) (st1.1, 0)).1

/-- Total number of tabs stored across a window list. -/
def totalTabs (ws : List Win) : Nat := (ws.map fun w => w.edge_tabs.length).sum

/-- `min_score = 40` acceptance gate in `restore_layout`. -/
def min_score : Nat := 40

/-- Insert one scored candidate into a descending list, after any
candidate with an equal score (stable descending order, matching the
stable `list.sort(reverse=True)` of the source). -/
def insertRanked (l : List (Win × Nat)) (x : Win × Nat) : List (Win × Nat) :=
  match l with
  | [] => [x]
  | y :: ys => if y.2 < x.2 then x :: y :: ys else y :: insertRanked ys x

/-- Stable descending sort by score. -/
def sortRanked (l : List (Win × Nat)) : List (Win × Nat) := l.foldl insertRanked []

/-- `_rank_candidates(target, current, used)`: drop used handles,
pre-filter by exe (process-name fallback), score and sort descending. -/
def _rank_candidates (target : Win) (current : List Win) (used : List Int) :
    List (Win × Nat) :=
  let t_exe := sLower target.exe
  let t_proc := sLower target.process_name
  let eligible := current.filter fun c =>
    c.hwnd ∉ used ∧
    (if t_exe ≠ "" ∧ sLower c.exe ≠ "" then t_exe = sLower c.exe
     else if t_proc ≠ "" ∧ sLower c.process_name ≠ "" then t_proc = sLower c.process_name
     else True)
  sortRanked (eligible.map fun c => (c, (_score c target).1))

/-- One monitor as returned by `GetMonitorInfo`: full bounds under the
key `Monitor` and the taskbar-excluding work area under `Work`.
`_clamp` reads only the `Monitor` rect.  The head of the monitor list is
the primary monitor. -/
structure MonitorInfo where
  monitor : List Int := []
  work : List Int := []
deriving Repr, DecidableEq, Inhabited

/-- `_clamp(left, top, w, h)`: when the rect misses every monitor, pull
it inside the first (primary) monitor bounds; otherwise unchanged.  The
`try/except: pass` around monitor enumeration behaves like an empty
bounds list. -/
def _clamp (mons : List MonitorInfo) (left top w h : Int) : Int × Int × Int × Int :=
  let bounds := (mons.map fun m => m.monitor).filter fun b => b ≠ []
  if bounds ≠ [] ∧ ¬ bounds.any fun b => _rects_intersect [left, top, left + w, top + h] b then
    let prim := bounds.headD []
    let left := min (max left (prim.getD 0 0)) (prim.getD 2 0 - w)
    let top := min (max top (prim.getD 1 0)) (prim.getD 3 0 - h)
    (left, top, w, h)
  else (left, top, w, h)

/-- Show-state constants from `win32con`. -/
def SW_SHOWNORMAL : Int := 1
def SW_SHOWMINIMIZED : Int := 2
def SW_SHOWMAXIMIZED : Int := 3
def SW_SHOWNOACTIVATE : Int := 4
def SW_RESTORE : Int := 9

/-- A mutating OS window call issued by `_apply_placement`
(`GetWindowPlacement` is the non-mutating placement read before the
atomic write). -/
inductive OSCall where
  | showWindow (hwnd : Int) (cmd : Int)
  | moveWindow (hwnd : Int) (left top w h : Int)
  | getWindowPlacement (hwnd : Int)
  | setWindowPlacement (hwnd : Int) (showCmd : Int) (rect : Int × Int × Int × Int)
deriving Repr, DecidableEq

/-- Whether a call rewrites the OS-remembered normal position. -/
def rewritesNormalPos : OSCall → Bool
  | .setWindowPlacement _ _ _ => true
  | _ => false

/-- `entry.get("restore_rect") or entry.get("rect") or entry.get("normal_rect") or []`. -/
def rrOf (entry : Win) : List Int :=
  if entry.restore_rect ≠ [] then entry.restore_rect
  else if entry.rect ≠ [] then entry.rect
  else entry.normal_rect

/-- `_apply_placement(hwnd, entry)`.  `primaryOk` is the oracle for "no
OS call in the primary branch raised", `fallbackOk` likewise for the
fallback branch; the second component is the trace of calls issued on
the branch that completed.  `none` models the uncaught `ValueError` of
`left, top, right, bottom = rr` when the rect list holds more than four
elements (that unpacking sits before the `try` block). -/
def _apply_placement (mons : List MonitorInfo) (primaryOk fallbackOk : Bool)
    (hwnd : Int) (entry : Win) : Option (Bool × List OSCall) :=
  let desired := if entry.show_cmd = 0 then SW_SHOWNORMAL else entry.show_cmd
  let rr := rrOf entry
  if rr.length < 4 then some (false, [])
  else if 4 < rr.length then none
  else
    let left0 := rr.getD 0 0
    let top0 := rr.getD 1 0
    let w0 := max 80 (rr.getD 2 0 - left0)
    let h0 := max 60 (rr.getD 3 0 - top0)
    let r := _clamp mons left0 top0 w0 h0
    let left := r.1
    let top := r.2.1
    let w := r.2.2.1
    let h := r.2.2.2
    if primaryOk then
      if entry.is_snapped then
        some (true, [.showWindow hwnd SW_SHOWNOACTIVATE, .moveWindow hwnd left top w h])
      else
        some (true, [.getWindowPlacement hwnd,
                     .setWindowPlacement hwnd desired (left, top, left + w, top + h)])
    else if fallbackOk then
      some (true, [.showWindow hwnd SW_RESTORE, .moveWindow hwnd left top w h,
                   .showWindow hwnd desired])
    else some (false, [])

/-- A synthetic top-level window as seen through the OS calls of
`_is_interesting`: every probed attribute is a field, with the
exception-defaults of the `_safe_*` helpers already folded in.
`stylesOk` models the `try` around `GetWindowLong` / `GetWindow`. -/
structure SynthWindow where
  is_window : Bool := true
  parent : Int := 0
  visible : Bool := true
  title : String := ""
  cls : String := ""
  ex_style : Nat := 0
  owner : Nat := 0
  proc : String := ""
  iconic : Bool := false
  rect : List Int := [0, 0, 0, 0]
deriving Repr, DecidableEq, Inhabited

def WS_EX_TOOLWINDOW : Nat := 0x80
def WS_EX_APPWINDOW : Nat := 0x40000

/-- `_is_interesting(hwnd)`: the capture filter. -/
def _is_interesting (w : SynthWindow) (stylesOk : Bool) : Bool :=
  if ¬ w.is_window then false
  else if w.parent ≠ 0 then false
  else if ¬ w.visible then false
  else if sTrim w.title = "" then false
  else if sLower (sTrim w.cls) ∈ _BLOCKED_CLASS then false
  else
    let exStyle := if stylesOk then w.ex_style else 0
    let owner := if stylesOk then w.owner else 0
    if exStyle &&& WS_EX_TOOLWINDOW ≠ 0 ∧ exStyle &&& WS_EX_APPWINDOW = 0 then false
    else if owner ≠ 0 ∧ exStyle &&& WS_EX_APPWINDOW = 0 then false
    else if sLower w.proc ∈ _BLOCKED_PROC then false
    else if ¬ w.iconic ∧
        (w.rect.getD 2 0 - w.rect.getD 0 0 < 120 ∨ w.rect.getD 3 0 - w.rect.getD 1 0 < 80) then
      false
    else true

/-- `_normalize_tabs(tabs)`: keep entries with a non-blank url, stripped. -/
def _normalize_tabs (tabs : List TabEntry) : List TabEntry :=
  tabs.filterMap fun t =>
    if sTrim t.url ≠ "" then some { title := sTrim t.title, url := sTrim t.url } else none

/-- The mutable locals of `restore_layout` between its phases.  `claimed`
records every `(target index, hwnd)` pair at the moment the hwnd is added
to the used-set; `crashed` is set when an uncaught exception propagates
(sole source in the placement path: the rect unpacking). -/
structure RestoreState where
  used : List Int := []
  applied : Nat := 0
  skipped : Nat := 0
  closed : Nat := 0
  missing : List Nat := []
  force_launch : List Nat := []
  claimed : List (Nat × Int) := []
  placed_z : List (Int × Int) := []
  crashed : Bool := false
deriving Repr, DecidableEq, Inhabited

/-- One iteration of the match-and-position loop of `restore_layout`
over `(index, target)`.  `pOk`/`fOk`/`closeOk` are per-hwnd oracles for
OS-call success. -/
def matchStep (mons : List MonitorInfo) (current : List Win) (destructive : Bool)
    (pOk fOk closeOk : Int → Bool) (st : RestoreState) (it : Nat × Win) : RestoreState :=
  if st.crashed then st
  else
    let i := it.1
    let t := it.2
    let destructiveTarget := destructive && t.destructive
    let ranked := _rank_candidates t current st.used
    let missPath :=
      { st with missing := st.missing ++ [i],
                force_launch := if destructiveTarget then st.force_launch ++ [i]
                                else st.force_launch }
    match ranked.head? with
    | none => missPath
    | some best =>
      if best.2 < min_score then missPath
      else
        let h := best.1.hwnd
        let st := { st with used := st.used ++ [h], claimed := st.claimed ++ [(i, h)] }
        if destructiveTarget then
          { st with closed := st.closed + (if closeOk h then 1 else 0),
                    missing := st.missing ++ [i],
                    force_launch := st.force_launch ++ [i] }
        else
          match _apply_placement mons (pOk h) (fOk h) h t with
          | none => { st with crashed := true }
          | some res =>
            if res.1 then
              { st with applied := st.applied + 1, placed_z := st.placed_z ++ [(h, t.z_order)] }
            else { st with skipped := st.skipped + 1 }

/-- Whether a still-missing target is launched: `launch_missing` or the
destructive force list, except Edge targets with saved tabs when the
edge-tabs flow will handle them. -/
def launchCond (targets : List Win) (launchMissing edgeTabsFlag : Bool)
    (force : List Nat) (i : Nat) : Bool :=
  let t := targets.getD i default
  (launchMissing || force.contains i) &&
  !(edgeTabsFlag && sLower t.process_name == "msedge.exe" && !(_normalize_tabs t.edge_tabs).isEmpty)

/-- One iteration of the post-launch re-matching loop; the second state
component is `still_miss`. -/
def rematchStep (mons : List MonitorInfo) (targets current2 : List Win)
    (pOk fOk : Int → Bool) (st : RestoreState × List Nat) (i : Nat) :
    RestoreState × List Nat :=
  if st.1.crashed then st
  else
    let t := targets.getD i default
    let ranked2 := _rank_candidates t current2 st.1.used
    match ranked2.head? with
    | none => (st.1, st.2 ++ [i])
    | some best =>
      if best.2 < min_score then (st.1, st.2 ++ [i])
      else
        let h := best.1.hwnd
        let s := { st.1 with used := st.1.used ++ [h], claimed := st.1.claimed ++ [(i, h)] }
        match _apply_placement mons (pOk h) (fOk h) h t with
        | none => ({ s with crashed := true }, st.2)
        | some res =>
          if res.1 then
            ({ s with applied := s.applied + 1, placed_z := s.placed_z ++ [(h, t.z_order)] }, st.2)
          else ({ s with skipped := s.skipped + 1 }, st.2)

/-- The match / place / launch-missing / re-match phases of
`restore_layout`, with every OS interaction an oracle.  Returns the final
state and the `launched` count.  The Edge tab replay and z-order phases
mutate no matching state and catch their own failures, so they do not
feed back into these counters. -/
def restoreCore (mons : List MonitorInfo) (targets current current2 : List Win)
    (launchMissing edgeTabsFlag destructive : Bool)
    (pOk1 fOk1 pOk2 fOk2 closeOk : Int → Bool) (launchOk : Nat → Bool) :
    RestoreState × Nat :=
  let st1 := targets.enum.foldl (matchStep mons current destructive pOk1 fOk1 closeOk)
    ({} : RestoreState)
  if st1.crashed then (st1, 0)
  else if (launchMissing ∨ st1.force_launch ≠ []) ∧ st1.missing ≠ [] then
    let toLaunch := st1.missing.filter
      (launchCond targets launchMissing edgeTabsFlag st1.force_launch)
    let launched := (toLaunch.filter launchOk).length
    if launched ≠ 0 then
      let res := st1.missing.foldl (rematchStep mons targets current2 pOk2 fOk2) (st1, [])
      let st2 := { res.1 with missing := res.2 }
      if st2.crashed then (st2, launched)
      else ({ st2 with skipped := st2.skipped + st2.missing.length }, launched)
    else ({ st1 with skipped := st1.skipped + st1.missing.length }, launched)
  else ({ st1 with skipped := st1.skipped + st1.missing.length }, 0)

/-- The legacy v1 `browser_tabs.edge` record (only in old layout files). -/
structure LegacyBrowserTabs where
  debug_port : Int := 0
  captured_at : String := ""
  tabs : List TabEntry := []
deriving Repr, DecidableEq, Inhabited

/-- A persisted layout file. -/
structure LayoutFile where
  schema : String := SCHEMA
  created_at : String := ""
  windows : List Win := []
  browser_tabs : Option LegacyBrowserTabs := none
  open_urls : Option (List String) := none
deriving Repr, DecidableEq, Inhabited

/-- The targets `restore_layout` iterates: saved windows minus
blocked-process / blocked-class entries. -/
def restoreTargets (d : LayoutFile) : List Win :=
  d.windows.filter fun t =>
    sLower t.process_name ∉ _BLOCKED_PROC ∧ sLower t.class_name ∉ _BLOCKED_CLASS

/-- `restore_layout(path, ...)`: `none` stands for an unreadable or
unparsable file (the `open`/`json.load` exceptions), the schema check
raises `ValueError`, and a `crashed` core run stands for an uncaught
exception escaping the matching loop. -/
def restore_layout_model (file : Option LayoutFile) (mons : List MonitorInfo)
    (current current2 : List Win) (launchMissing edgeTabsFlag destructive : Bool)
    (pOk1 fOk1 pOk2 fOk2 closeOk : Int → Bool) (launchOk : Nat → Bool) :
    Except String (RestoreState × Nat) :=
  match file with
  | none => .error "unreadable or unparsable layout file"
  | some d =>
    if sTrim d.schema ≠ SCHEMA then .error "Unrecognised layout schema"
    else
      let core := restoreCore mons (restoreTargets d) current current2
        launchMissing edgeTabsFlag destructive pOk1 fOk1 pOk2 fOk2 closeOk launchOk
      if core.1.crashed then .error "ValueError: too many values to unpack"
      else .ok core

/-- Index-carrying map used to embed the in-place loops that walk
`windows` with a running index. -/
def mapFromIdx (f : Nat → Win → Win) : Nat → List Win → List Win
  | _, [] => []
  | i, w :: ws => f i w :: mapFromIdx f (i + 1) ws

/-- The per-window step of `_ensure_ids`: windows whose `window_id` is
blank after stripping get a fresh id. -/
def ensureIdUpd (fresh : Nat → String) (i : Nat) (w : Win) : Win :=
  if sTrim w.window_id = "" then { w with window_id := fresh i } else w

/-- `_ensure_ids(windows)`: give every window whose `window_id` is blank
a fresh id.  The source draws `uuid4` strings; the model abstracts the
generator as a supply `fresh` indexed by position. -/
def _ensure_ids (fresh : Nat → String) (ws : List Win) : List Win :=
  mapFromIdx (ensureIdUpd fresh) 0 ws

/-- Write an updated sublist back over the positions selected by `p`
(the functional form of mutating the members of a filtered sublist). -/
def replaceSubseq (p : Win → Bool) : List Win → List Win → List Win
  | [], _ => []
  | w :: ws, sub =>
    if p w then
      match sub with
      | [] => w :: ws
      | x :: xs => x :: replaceSubseq p ws xs
    else w :: replaceSubseq p ws sub

/-- Modelled from the spec: the current schema string of the v2 layout
shape, `"<name>.v2"` per spec section 6 (the schema migrator itself is
absent from the checked-out sources; only `tests/test_schema.py` calls
it). -/
def SCHEMA_V2 : String := "window-layout.v2"

/-- Modelled from the spec: the legacy tab lists of a v1 layout — the
`browser_tabs.<browser>.tabs` entries plus the `open_urls.<browser>`
bare URLs — flattened to CDP-shaped tabs with no windowId. -/
def legacyTabs (d : LayoutFile) : List TabIn :=
  (match d.browser_tabs with
   | some bt => bt.tabs.map fun t => { title := t.title, url := t.url, window_id := none }
   | none => []) ++
  (match d.open_urls with
   | some urls => urls.map fun u => { title := "", url := u, window_id := none }
   | none => [])

/-- Whether a saved window belongs to the reference browser. -/
def isEdgeWin (w : Win) : Bool := sLower w.process_name == "msedge.exe"

/-- Modelled from the spec: `migrate(layoutDict)` — the schema migrator
`_migrate_v1_to_v2` is not present in the checked-out sources, so this
follows spec section 6: a layout already carrying the current schema is
returned unchanged except for ensured window ids; a legacy layout has
its flat tab lists redistributed per-window into `edge_tabs` (by the
capture-time assignment rule of spec section 4.6, which for id-less tabs
is title-overlap then round-robin), the legacy keys dropped entirely,
and the schema stamped to the current one. -/
def migrate (fresh : Nat → String) (d : LayoutFile) : LayoutFile :=
  if d.schema = SCHEMA_V2 then { d with windows := _ensure_ids fresh d.windows }
  else
    let edgeWins := d.windows.filter isEdgeWin
    let edgeWins := _assign_tabs edgeWins (legacyTabs d)
    { schema := SCHEMA_V2
      created_at := d.created_at
      windows := _ensure_ids fresh (replaceSubseq isEdgeWin d.windows edgeWins)
      browser_tabs := none
      open_urls := none }

/-! ### Component bounds for the scorer -/

lemma exeComp_le (c t : Win) : exeComp c t ≤ 50 := by
  unfold exeComp; split_ifs <;> norm_num

lemma procComp_le (c t : Win) : procComp c t ≤ 25 := by
  unfold procComp; split_ifs <;> norm_num

lemma clsComp_le (c t : Win) : clsComp c t ≤ 15 := by
  unfold clsComp; split_ifs <;> norm_num

lemma titleComp_le (c t : Win) : titleComp c t ≤ 40 := by
  unfold titleComp; dsimp only; split_ifs <;> norm_num

lemma geoComp_le (c t : Win) : geoComp c t ≤ 30 := by
  unfold geoComp; split_ifs <;> norm_num

lemma titleComp_edge_le (c t : Win) (h : sLower t.process_name = "msedge.exe") :
    titleComp c t ≤ 8 := by
  unfold titleComp; dsimp only; rw [if_pos h]; split_ifs <;> norm_num

lemma comps_congr (c1 c2 t : Win)
    (he : c1.exe = c2.exe) (hp : c1.process_name = c2.process_name)
    (hc : c1.class_name = c2.class_name) (hr : c1.rect = c2.rect)
    (hn : c1.normal_rect = c2.normal_rect) :
    exeComp c1 t = exeComp c2 t ∧ procComp c1 t = procComp c2 t ∧
    clsComp c1 t = clsComp c2 t ∧ geoComp c1 t = geoComp c2 t := by
  unfold exeComp procComp clsComp geoComp scoreRect
  rw [he, hp, hc, hr, hn]
  exact ⟨rfl, rfl, rfl, rfl⟩

lemma pyIn_empty (s : String) : pyIn "" s = true := by
  show pyInChars [] s.data = true
  cases s.data <;> simp [pyInChars, List.isPrefixOf]

lemma score_fst (c t : Win) :
    (_score c t).1 =
      exeComp c t + procComp c t + clsComp c t + titleComp c t + geoComp c t := rfl

/-- C1: for every candidate and target, the score total returned by
`_score` is the sum of the named components, the exe / process / class
components are +50 / +25 / +15 exactly on (case-insensitive, non-empty)
equality of those fields, title and geometry are bounded by their band
maxima, and the total never exceeds the documented 165-point cap. -/
theorem C1_score_additive_and_capped (c t : Win) :
    (_score c t).1 =
      (_score c t).2.exe + (_score c t).2.process + (_score c t).2.cls +
        (_score c t).2.title + (_score c t).2.geometry ∧
    ((_score c t).2.exe =
      if sLower t.exe ≠ "" ∧ sLower c.exe ≠ "" ∧ sLower t.exe = sLower c.exe then 50 else 0) ∧
    ((_score c t).2.process =
      if sLower t.process_name ≠ "" ∧ sLower c.process_name ≠ "" ∧
          sLower t.process_name = sLower c.process_name then 25 else 0) ∧
    ((_score c t).2.cls =
      if sLower t.class_name ≠ "" ∧ sLower c.class_name ≠ "" ∧
          sLower t.class_name = sLower c.class_name then 15 else 0) ∧
    (_score c t).2.title ≤ 40 ∧ (_score c t).2.geometry ≤ 30 ∧
    (_score c t).1 ≤ 165 := by
  refine ⟨rfl, rfl, rfl, rfl, titleComp_le c t, geoComp_le c t, ?_⟩
  have h1 := exeComp_le c t
  have h2 := procComp_le c t
  have h3 := clsComp_le c t
  have h4 := titleComp_le c t
  have h5 := geoComp_le c t
  show exeComp c t + procComp c t + clsComp c t + titleComp c t + geoComp c t ≤ 165
  omega

/-- C5: for a reference-browser target the title component is exactly the
0.4-threshold +8 nudge (hence at most 8), so two browser candidates that
agree on exe, process, class and geometry score within 8 points of each
other whatever their titles; for a non-browser target an exact
(case-insensitive) title match contributes +40, a substring match either
direction +15, and an exact-title candidate strictly outscores an
otherwise identical candidate whose title is different and not a
substring either way. -/
theorem C5_browser_title_deweighting :
    (∀ c t : Win, sLower t.process_name = "msedge.exe" →
      (_score c t).2.title =
        (if mkRat 2 5 ≤ jaccardToks (pyTokens (sLower t.title)) (pyTokens (sLower c.title))
         then 8 else 0) ∧
      (_score c t).2.title ≤ 8) ∧
    (∀ c1 c2 t : Win, sLower t.process_name = "msedge.exe" →
      c1.exe = c2.exe → c1.process_name = c2.process_name →
      c1.class_name = c2.class_name → c1.rect = c2.rect →
      c1.normal_rect = c2.normal_rect →
      (_score c1 t).1 ≤ (_score c2 t).1 + 8 ∧ (_score c2 t).1 ≤ (_score c1 t).1 + 8) ∧
    (∀ c t : Win, sLower t.process_name ≠ "msedge.exe" →
      sLower t.title ≠ "" → sLower c.title ≠ "" → sLower t.title = sLower c.title →
      (_score c t).2.title = 40) ∧
    (∀ c t : Win, sLower t.process_name ≠ "msedge.exe" →
      sLower t.title ≠ "" → sLower c.title ≠ "" → sLower t.title ≠ sLower c.title →
      (pyIn (sLower t.title) (sLower c.title) = true ∨
        pyIn (sLower c.title) (sLower t.title) = true) →
      (_score c t).2.title = 15) ∧
    (∀ c1 c2 t : Win, sLower t.process_name ≠ "msedge.exe" →
      sLower t.title ≠ "" → sLower c1.title = sLower t.title →
      sLower c2.title ≠ sLower t.title →
      pyIn (sLower t.title) (sLower c2.title) = false →
      pyIn (sLower c2.title) (sLower t.title) = false →
      c1.exe = c2.exe → c1.process_name = c2.process_name →
      c1.class_name = c2.class_name → c1.rect = c2.rect →
      c1.normal_rect = c2.normal_rect →
      (_score c2 t).1 < (_score c1 t).1) := by
  refine ⟨?_, ?_, ?_, ?_, ?_⟩
  · intro c t h
    constructor
    · show titleComp c t = _
      unfold titleComp
      dsimp only
      rw [if_pos h]
    · exact titleComp_edge_le c t h
  · intro c1 c2 t h he hp hc hr hn
    obtain ⟨h1, h2, h3, h4⟩ := comps_congr c1 c2 t he hp hc hr hn
    have t1 := titleComp_edge_le c1 t h
    have t2 := titleComp_edge_le c2 t h
    constructor <;>
      · rw [score_fst, score_fst]
        omega
  · intro c t h ht hc heq
    show titleComp c t = 40
    unfold titleComp
    dsimp only
    rw [if_neg h, if_pos ⟨ht, hc⟩, if_pos heq]
  · intro c t h ht hc hne hsub
    show titleComp c t = 15
    unfold titleComp
    dsimp only
    rw [if_neg h, if_pos ⟨ht, hc⟩, if_neg hne, if_pos ?_]
    rcases hsub with h' | h'
    · exact Or.inl h'
    · exact Or.inr h'
  · intro c1 c2 t h ht h1 h2 hs1 hs2 he hp hc hr hn
    obtain ⟨e1, e2, e3, e4⟩ := comps_congr c1 c2 t he hp hc hr hn
    have hc1 : sLower c1.title ≠ "" := by rw [h1]; exact ht
    have hc2 : sLower c2.title ≠ "" := by
      intro hz
      have := pyIn_empty (sLower t.title)
      rw [← hz] at this
      rw [this] at hs2
      exact Bool.noConfusion hs2
    have T1 : titleComp c1 t = 40 := by
      unfold titleComp
      dsimp only
      rw [if_neg h, if_pos ⟨ht, hc1⟩, if_pos h1.symm]
    have T2 : titleComp c2 t = 0 := by
      unfold titleComp
      dsimp only
      rw [if_neg h, if_pos ⟨ht, hc2⟩, if_neg (fun hx => h2 hx.symm), if_neg ?_]
      intro hx
      rcases hx with h' | h'
      · rw [h'] at hs1; exact Bool.noConfusion hs1
      · rw [h'] at hs2; exact Bool.noConfusion hs2
    show exeComp c2 t + procComp c2 t + clsComp c2 t + titleComp c2 t + geoComp c2 t <
      exeComp c1 t + procComp c1 t + clsComp c1 t + titleComp c1 t + geoComp c1 t
    omega

/-- Witness for C5 at concrete windows: a browser target with an
unrelated candidate title scores the 0-point branch of the nudge, two
browser candidates identical apart from title stay within the 8-point
band, and for a notepad target the exact / substring / unrelated titles
score 40 / 15 / strictly below the exact match. -/
theorem C5_browser_title_deweighting_witness :
    (_score { title := "gamma" } { process_name := "msedge.exe", title := "alpha beta" }).2.title ≤ 8 ∧
    (_score { title := "aaa", exe := "e", process_name := "msedge.exe", class_name := "k",
              rect := [0, 0, 100, 100] }
        { process_name := "msedge.exe", title := "tt", exe := "e", class_name := "k",
          rect := [0, 0, 100, 100] }).1 ≤
      (_score { title := "zzz", exe := "e", process_name := "msedge.exe", class_name := "k",
                rect := [0, 0, 100, 100] }
          { process_name := "msedge.exe", title := "tt", exe := "e", class_name := "k",
            rect := [0, 0, 100, 100] }).1 + 8 ∧
    (_score { title := "notes" } { process_name := "notepad.exe", title := "Notes" }).2.title = 40 ∧
    (_score { title := "my notes here" } { process_name := "notepad.exe", title := "Notes" }).2.title = 15 ∧
    (_score { title := "zzz" } { process_name := "notepad.exe", title := "Notes" }).1 <
      (_score { title := "Notes" } { process_name := "notepad.exe", title := "Notes" }).1 :=
  ⟨(C5_browser_title_deweighting.1 _ _ (by decide)).2,
   (C5_browser_title_deweighting.2.1 _ _ _ (by decide) rfl rfl rfl rfl rfl).1,
   C5_browser_title_deweighting.2.2.1 _ _ (by decide) (by decide) (by decide) (by decide),
   C5_browser_title_deweighting.2.2.2.1 _ _ (by decide) (by decide) (by decide) (by decide)
     (by decide),
   C5_browser_title_deweighting.2.2.2.2 _ _ _ (by decide) (by decide) (by decide) (by decide)
     (by decide) (by decide) rfl rfl rfl rfl rfl⟩

/-! ### Capture filter -/

lemma interestingTrue (w : SynthWindow) (ok : Bool) (h : _is_interesting w ok = true) :
    w.is_window = true ∧ w.parent = 0 ∧ w.visible = true ∧ sTrim w.title ≠ "" ∧
    sLower (sTrim w.cls) ∉ _BLOCKED_CLASS ∧ sLower w.proc ∉ _BLOCKED_PROC ∧
    (¬ w.iconic = true →
      ¬(w.rect.getD 2 0 - w.rect.getD 0 0 < 120 ∨ w.rect.getD 3 0 - w.rect.getD 1 0 < 80)) := by
  unfold _is_interesting at h
  dsimp only at h
  split_ifs at h
  all_goals first
    | exact Bool.noConfusion h
    | (push_neg at *; tauto)

lemma interestingOfIconic (w : SynthWindow) (ok : Bool)
    (hiw : w.is_window = true) (hp : w.parent = 0) (hv : w.visible = true)
    (ht : sTrim w.title ≠ "") (hcls : sLower (sTrim w.cls) ∉ _BLOCKED_CLASS)
    (htool : ¬((if ok then w.ex_style else 0) &&& WS_EX_TOOLWINDOW ≠ 0 ∧
               (if ok then w.ex_style else 0) &&& WS_EX_APPWINDOW = 0))
    (howner : ¬((if ok then w.owner else 0) ≠ 0 ∧
                (if ok then w.ex_style else 0) &&& WS_EX_APPWINDOW = 0))
    (hproc : sLower w.proc ∉ _BLOCKED_PROC) (hic : w.iconic = true) :
    _is_interesting w ok = true := by
  unfold _is_interesting
  dsimp only
  rw [if_neg (not_not_intro hiw), if_neg (not_not_intro hp), if_neg (not_not_intro hv),
      if_neg ht, if_neg hcls, if_neg htool, if_neg howner, if_neg hproc,
      if_neg (fun hx => hx.1 hic)]

/-- C7: the capture filter excludes every window with a parent, every
invisible window, every window whose title is blank after trimming, and
every window whose class or owning process is on the fixed exclusion
lists; a non-minimized window below the 120x80 floor is excluded, while a
minimized window passing the remaining checks is captured no matter how
small its live rect is. -/
theorem C7_capture_filter (w : SynthWindow) (stylesOk : Bool) :
    (w.parent ≠ 0 → _is_interesting w stylesOk = false) ∧
    (w.visible = false → _is_interesting w stylesOk = false) ∧
    (sTrim w.title = "" → _is_interesting w stylesOk = false) ∧
    (sLower (sTrim w.cls) ∈ _BLOCKED_CLASS → _is_interesting w stylesOk = false) ∧
    (sLower w.proc ∈ _BLOCKED_PROC → _is_interesting w stylesOk = false) ∧
    (w.iconic = false →
      (w.rect.getD 2 0 - w.rect.getD 0 0 < 120 ∨ w.rect.getD 3 0 - w.rect.getD 1 0 < 80) →
      _is_interesting w stylesOk = false) ∧
    (w.iconic = true → w.is_window = true → w.parent = 0 → w.visible = true →
      sTrim w.title ≠ "" → sLower (sTrim w.cls) ∉ _BLOCKED_CLASS →
      ¬((if stylesOk then w.ex_style else 0) &&& WS_EX_TOOLWINDOW ≠ 0 ∧
        (if stylesOk then w.ex_style else 0) &&& WS_EX_APPWINDOW = 0) →
      ¬((if stylesOk then w.owner else 0) ≠ 0 ∧
        (if stylesOk then w.ex_style else 0) &&& WS_EX_APPWINDOW = 0) →
      sLower w.proc ∉ _BLOCKED_PROC →
      _is_interesting w stylesOk = true) := by
  have key : ∀ P : Prop,
      (_is_interesting w stylesOk = true → ¬ P) → (P → _is_interesting w stylesOk = false) := by
    intro P h hp
    cases hres : _is_interesting w stylesOk with
    | false => rfl
    | true => exact absurd hp (h hres)
  refine ⟨?_, ?_, ?_, ?_, ?_, ?_, ?_⟩
  · exact key _ fun h => (interestingTrue w stylesOk h).2.1 ▸ fun hx => hx rfl
  · exact key _ fun h hx => by
      have := (interestingTrue w stylesOk h).2.2.1
      rw [hx] at this
      exact Bool.noConfusion this
  · exact key _ fun h => (interestingTrue w stylesOk h).2.2.2.1
  · exact key _ fun h => (interestingTrue w stylesOk h).2.2.2.2.1
  · exact key _ fun h => (interestingTrue w stylesOk h).2.2.2.2.2.1
  · intro hni hsmall
    refine key _ (fun h => ?_) hsmall
    have := (interestingTrue w stylesOk h).2.2.2.2.2.2
    rw [hni] at this
    exact this (fun hx => Bool.noConfusion hx)
  · intro hic hiw hp hv ht hcls htool howner hproc
    exact interestingOfIconic w stylesOk hiw hp hv ht hcls htool howner hproc hic

/-- Witness for C7: each exclusion fires on a concrete synthetic window,
and a 10x10 minimized notepad window is still captured. -/
theorem C7_capture_filter_witness :
    _is_interesting { title := "x", parent := 7, rect := [0, 0, 500, 500] } true = false ∧
    _is_interesting { title := "x", visible := false, rect := [0, 0, 500, 500] } true = false ∧
    _is_interesting { title := "   ", rect := [0, 0, 500, 500] } true = false ∧
    _is_interesting { title := "x", cls := "Progman", rect := [0, 0, 500, 500] } true = false ∧
    _is_interesting { title := "x", proc := "DWM.exe", rect := [0, 0, 500, 500] } true = false ∧
    _is_interesting { title := "x", proc := "notepad.exe", rect := [0, 0, 100, 50] } true = false ∧
    _is_interesting { title := "x", proc := "notepad.exe", rect := [0, 0, 10, 10],
                      iconic := true } true = true :=
  ⟨(C7_capture_filter _ true).1 (by decide),
   (C7_capture_filter _ true).2.1 rfl,
   (C7_capture_filter _ true).2.2.1 (by decide),
   (C7_capture_filter _ true).2.2.2.1 (by decide),
   (C7_capture_filter _ true).2.2.2.2.1 (by decide),
   (C7_capture_filter _ true).2.2.2.2.2.1 rfl (by decide),
   (C7_capture_filter _ true).2.2.2.2.2.2 rfl rfl rfl rfl (by decide) (by decide) (by decide)
     (by decide) (by decide)⟩


lemma rects_intersect_iff (a b : List Int) :
    _rects_intersect a b = true ↔
      ¬(a.getD 2 0 ≤ b.getD 0 0) ∧ ¬(a.getD 0 0 ≥ b.getD 2 0) ∧
      ¬(a.getD 3 0 ≤ b.getD 1 0) ∧ ¬(a.getD 1 0 ≥ b.getD 3 0) := by
  unfold _rects_intersect
  simp [not_or]
  tauto

lemma rects_intersect_lit (a0 a1 a2 a3 : Int) (b : List Int)
    (h1 : b.getD 0 0 < a2) (h2 : a0 < b.getD 2 0)
    (h3 : b.getD 1 0 < a3) (h4 : a1 < b.getD 3 0) :
    _rects_intersect [a0, a1, a2, a3] b = true := by
  have e0 : ([a0, a1, a2, a3] : List Int).getD 0 0 = a0 := rfl
  have e1 : ([a0, a1, a2, a3] : List Int).getD 1 0 = a1 := rfl
  have e2 : ([a0, a1, a2, a3] : List Int).getD 2 0 = a2 := rfl
  have e3 : ([a0, a1, a2, a3] : List Int).getD 3 0 = a3 := rfl
  rw [rects_intersect_iff, e0, e1, e2, e3]
  omega

/-- C9 (amended): before application the rect is clamped so that it
intersects at least one monitor: a rect that already intersects some
monitor is returned unchanged, and a rect that misses every monitor is
pulled into the primary (first-enumerated) monitor FULL bounds — not its
work area — after which it intersects that monitor (for positive sizes
and well-formed monitor rects). -/
theorem C9_amended (mons : List MonitorInfo) (l t w h : Int) (hw : 0 < w) (hh : 0 < h)
    (hwf : ∀ m ∈ mons, m.monitor ≠ [] →
      m.monitor.getD 0 0 < m.monitor.getD 2 0 ∧ m.monitor.getD 1 0 < m.monitor.getD 3 0) :
    ∃ lc tc, _clamp mons l t w h = (lc, tc, w, h) ∧
      (((mons.map fun m => m.monitor).filter fun b => b ≠ []).any
          (fun b => _rects_intersect [l, t, l + w, t + h] b) = true →
        lc = l ∧ tc = t) ∧
      (((mons.map fun m => m.monitor).filter fun b => b ≠ []) ≠ [] →
        ((mons.map fun m => m.monitor).filter fun b => b ≠ []).any
          (fun b => _rects_intersect [lc, tc, lc + w, tc + h] b) = true) := by
  set bounds := ((mons.map fun m => m.monitor).filter fun b => b ≠ []) with hb
  by_cases hcond : bounds ≠ [] ∧
      ¬ bounds.any (fun b => _rects_intersect [l, t, l + w, t + h] b) = true
  · refine ⟨min (max l ((bounds.headD []).getD 0 0)) ((bounds.headD []).getD 2 0 - w),
            min (max t ((bounds.headD []).getD 1 0)) ((bounds.headD []).getD 3 0 - h),
            ?_, fun hx => absurd hx hcond.2, ?_⟩
    · unfold _clamp
      rw [← hb, if_pos hcond]
    · intro hne
      set prim := bounds.headD [] with hprim
      have hmem : prim ∈ bounds := by
        cases hbc : bounds with
        | nil => exact absurd hbc hne
        | cons x xs => rw [hprim, hbc]; exact List.mem_cons_self x xs
      have hprim_ne : prim ≠ [] := by
        have := List.of_mem_filter hmem
        simpa using this
      obtain ⟨m, hm, hmp⟩ := List.mem_map.mp (List.mem_of_mem_filter hmem)
      have hwfp := hwf m hm (by rw [hmp]; exact hprim_ne)
      rw [hmp] at hwfp
      rw [List.any_eq_true]
      refine ⟨prim, hmem, rects_intersect_lit _ _ _ _ _ ?_ ?_ ?_ ?_⟩ <;> omega
  · refine ⟨l, t, ?_, fun _ => ⟨rfl, rfl⟩, fun hne => ?_⟩
    · unfold _clamp
      rw [← hb, if_neg hcond]
    · rcases not_and_or.mp hcond with hx | hx
      · exact absurd hne hx
      · exact not_not.mp hx

/-- Counterexample for C9 as stated: with one monitor whose work area
excludes a 40px taskbar strip, a rect fully outside every monitor is
clamped into the monitor FULL bounds — the resulting rect
(1820, 980) .. (1920, 1080) has its bottom edge 1080 below the work-area
bottom 1040, so it is not clamped into the primary monitor work area as
the claim says. -/
theorem C9_counterexample :
    _clamp [{ monitor := [0, 0, 1920, 1080], work := [0, 0, 1920, 1040] }] 5000 5000 100 100 =
      (1820, 980, 100, 100) ∧
    ¬ ((980 : Int) + 100 ≤
        ({ monitor := [0, 0, 1920, 1080], work := [0, 0, 1920, 1040] } : MonitorInfo).work.getD 3 0) := by
  decide

/-- Witness for C9 at one concrete monitor configuration. -/
theorem C9_amended_witness :
    ∃ lc tc,
      _clamp [{ monitor := [0, 0, 1000, 1000], work := [0, 0, 1000, 960] }] 5000 5000 100 100 =
        (lc, tc, 100, 100) :=
  match C9_amended [{ monitor := [0, 0, 1000, 1000], work := [0, 0, 1000, 960] }] 5000 5000 100 100
      (by decide) (by decide) (by decide) with
  | ⟨lc, tc, hcl, _, _⟩ => ⟨lc, tc, hcl⟩


/-- C8: on the success path the placement applier issues for a snapped
target exactly a non-activating restore-to-normal followed by a direct
move/resize to the captured (clamp-invariant) snapped rect — no
`SetWindowPlacement` call, so the OS-remembered normal position is left
untouched — while for a non-snapped (normal / minimized / maximized)
target it issues a placement read followed by exactly one atomic
`SetWindowPlacement` carrying both the saved show state and the rect. -/
theorem C8_placement_calls :
    (∀ (mons : List MonitorInfo) (fOk : Bool) (hwnd : Int) (e : Win) (l t r b : Int),
      e.is_snapped = true →
      (rrOf e).length = 4 →
      (rrOf e).getD 0 0 = l → (rrOf e).getD 1 0 = t →
      (rrOf e).getD 2 0 = r → (rrOf e).getD 3 0 = b →
      80 ≤ r - l → 60 ≤ b - t →
      _clamp mons l t (r - l) (b - t) = (l, t, r - l, b - t) →
      _apply_placement mons true fOk hwnd e =
        some (true, [.showWindow hwnd SW_SHOWNOACTIVATE, .moveWindow hwnd l t (r - l) (b - t)]) ∧
      (∀ call ∈ [OSCall.showWindow hwnd SW_SHOWNOACTIVATE,
                 OSCall.moveWindow hwnd l t (r - l) (b - t)],
        rewritesNormalPos call = false)) ∧
    (∀ (mons : List MonitorInfo) (fOk : Bool) (hwnd : Int) (e : Win) (l t r b : Int),
      e.is_snapped = false → e.show_cmd ≠ 0 →
      (rrOf e).length = 4 →
      (rrOf e).getD 0 0 = l → (rrOf e).getD 1 0 = t →
      (rrOf e).getD 2 0 = r → (rrOf e).getD 3 0 = b →
      80 ≤ r - l → 60 ≤ b - t →
      _clamp mons l t (r - l) (b - t) = (l, t, r - l, b - t) →
      _apply_placement mons true fOk hwnd e =
        some (true, [.getWindowPlacement hwnd,
                     .setWindowPlacement hwnd e.show_cmd (l, t, r, b)])) := by
  constructor
  · intro mons fOk hwnd e l t r b hs hlen h0 h1 h2 h3 h80 h60 hcl
    constructor
    · unfold _apply_placement
      rw [if_neg (by omega), if_neg (by omega)]
      dsimp only
      rw [h0, h1, h2, h3, max_eq_right h80, max_eq_right h60, hcl]
      dsimp only
      rw [if_pos rfl, if_pos hs]
    · intro call hc
      simp only [List.mem_cons, List.not_mem_nil, or_false] at hc
      rcases hc with rfl | rfl <;> rfl
  · intro mons fOk hwnd e l t r b hs hnz hlen h0 h1 h2 h3 h80 h60 hcl
    unfold _apply_placement
    rw [if_neg (by omega), if_neg (by omega)]
    dsimp only
    rw [h0, h1, h2, h3, max_eq_right h80, max_eq_right h60, hcl]
    dsimp only
    rw [if_pos rfl, if_neg (by rw [hs]; exact Bool.noConfusion), if_neg hnz]
    have e1 : l + (r - l) = r := by ring
    have e2 : t + (b - t) = b := by ring
    rw [e1, e2]

/-- Witness for C8: a snapped and a maximized concrete entry. -/
theorem C8_placement_calls_witness :
    _apply_placement [] true false 7 { is_snapped := true, restore_rect := [10, 20, 110, 120] } =
      some (true, [.showWindow 7 SW_SHOWNOACTIVATE, .moveWindow 7 10 20 100 100]) ∧
    _apply_placement [] true false 7
        { is_snapped := false, show_cmd := 3, restore_rect := [10, 20, 110, 120] } =
      some (true, [.getWindowPlacement 7, .setWindowPlacement 7 3 (10, 20, 110, 120)]) :=
  ⟨(C8_placement_calls.1 [] false 7 _ 10 20 110 120 rfl (by decide) (by decide) (by decide)
      (by decide) (by decide) (by decide) (by decide) (by decide)).1,
   C8_placement_calls.2 [] false 7 _ 10 20 110 120 rfl (by decide) (by decide) (by decide)
      (by decide) (by decide) (by decide) (by decide) (by decide) (by decide)⟩


lemma clearTabs_clearTabs (w : Win) : clearTabs (clearTabs w) = clearTabs w := rfl

lemma clearTabs_title (w : Win) : (clearTabs w).title = w.title := rfl

lemma winHint_clear (w : Win) : winHint (clearTabs w) = winHint w := rfl

lemma getD_map_clear (l : List Win) (i : Nat) :
    (l.map clearTabs).getD i default = clearTabs (l.getD i default) := by
  induction l generalizing i with
  | nil => cases i <;> rfl
  | cons w ws ih => cases i with
    | zero => rfl
    | succ n => exact ih n

lemma hintIdx_clear (wins : List Win) (wd : Int) :
    hintIdx (wins.map clearTabs) wd = hintIdx wins wd := by
  unfold hintIdx
  simp only [List.length_map, getD_map_clear, winHint_clear]

lemma bestTitleMatch_clear (wins : List Win) (a : List Nat) (s : String) :
    bestTitleMatch (wins.map clearTabs) a s = bestTitleMatch wins a s := by
  unfold bestTitleMatch
  simp only [List.length_map, getD_map_clear, clearTabs_title]

lemma pickHint_clear (wins : List Win) (a : List Nat) (wd : Option Int) :
    pickHint (wins.map clearTabs) a wd = pickHint wins a wd := by
  unfold pickHint
  simp only [hintIdx_clear]

lemma pickTitle_clear (wins : List Win) (a : List Nat) (g : List TabIn) :
    pickTitle (wins.map clearTabs) a g = pickTitle wins a g := by
  unfold pickTitle
  simp only [bestTitleMatch_clear]

lemma pickFirstFree_clear (wins : List Win) (a : List Nat) :
    pickFirstFree (wins.map clearTabs) a = pickFirstFree wins a := by
  unfold pickFirstFree
  rw [List.length_map]

lemma pick_clear (wins : List Win) (a : List Nat) (g : List TabIn) (wd : Option Int) :
    pick (wins.map clearTabs) a g wd = pick wins a g wd := by
  unfold pick
  rw [pickHint_clear, pickTitle_clear, pickFirstFree_clear]

lemma groupStep_clear (wins : List Win) (tabs : List TabIn) :
    groupStep (wins.map clearTabs) tabs = groupStep wins tabs := by
  funext st wd
  unfold groupStep
  simp only [pick_clear]

lemma noWidStep_clear (wins : List Win) (a : List Nat) :
    noWidStep (wins.map clearTabs) a = noWidStep wins a := by
  funext st tab
  unfold noWidStep
  simp only [bestTitleMatch_clear, List.length_map]

lemma foldl_inv {α β : Type _} (P : β → Prop) (f : β → α → β) (l : List α) (init : β)
    (h0 : P init) (hstep : ∀ b a, a ∈ l → P b → P (f b a)) : P (l.foldl f init) := by
  induction l generalizing init with
  | nil => exact h0
  | cons x xs ih =>
    exact ih (f init x) (hstep init x (List.mem_cons_self x xs) h0)
      (fun b a ha hb => hstep b a (List.mem_cons_of_mem x ha) hb)

lemma mem_setAt {ws : List Win} {i : Nat} {f : Win → Win} {w : Win}
    (hw : w ∈ setAt ws i f) : w ∈ ws ∨ ∃ v ∈ ws, w = f v := by
  induction ws generalizing i with
  | nil => exact absurd hw (List.not_mem_nil w)
  | cons x xs ih =>
    cases i with
    | zero =>
      rcases List.mem_cons.mp hw with rfl | hmem
      · exact Or.inr ⟨x, List.mem_cons_self x xs, rfl⟩
      · exact Or.inl (List.mem_cons_of_mem x hmem)
    | succ n =>
      rcases List.mem_cons.mp hw with rfl | hmem
      · exact Or.inl (List.mem_cons_self _ _)
      · rcases ih hmem with h | ⟨v, hv, rfl⟩
        · exact Or.inl (List.mem_cons_of_mem x h)
        · exact Or.inr ⟨v, List.mem_cons_of_mem x hv, rfl⟩

lemma widGroup_sub {tabs : List TabIn} {wd : Int} {tb : TabIn} (h : tb ∈ widGroup tabs wd) :
    tb ∈ tabs := List.mem_of_mem_filter h

lemma noWid_sub {tabs : List TabIn} {tb : TabIn} (h : tb ∈ noWid tabs) :
    tb ∈ tabs := List.mem_of_mem_filter h

lemma groupUpd_edge_tabs (wd : Int) (group : List TabIn) (w : Win) :
    (groupUpd wd group w).edge_tabs = w.edge_tabs ++ group.map tabEntry := by
  unfold groupUpd
  cases w.edge <;> rfl

/-- C10: invoked with an empty window list or an empty tab list the
assignment leaves the passed windows untouched; otherwise it first resets
`edge_tabs` on every passed window — the result is the same whether or
not the windows carried previously saved tabs — and every tab entry in
the result comes from the input tab list. -/
theorem C10_assign_resets_tabs (wins : List Win) (tabs : List TabIn) :
    (wins = [] ∨ tabs = [] → _assign_tabs wins tabs = wins) ∧
    (wins ≠ [] → tabs ≠ [] →
      _assign_tabs (wins.map clearTabs) tabs = _assign_tabs wins tabs) ∧
    (wins ≠ [] → tabs ≠ [] →
      ∀ w ∈ _assign_tabs wins tabs, ∀ e ∈ w.edge_tabs, e ∈ tabs.map tabEntry) := by
  refine ⟨?_, ?_, ?_⟩
  · intro h
    unfold _assign_tabs
    rw [if_pos h]
  · intro hw ht
    have hc1 : ¬(wins.map clearTabs = [] ∨ tabs = []) := by
      intro h
      rcases h with h | h
      · exact hw (List.map_eq_nil_iff.mp h)
      · exact ht h
    have hc2 : ¬(wins = [] ∨ tabs = []) := by
      intro h
      rcases h with h | h
      · exact hw h
      · exact ht h
    unfold _assign_tabs
    rw [if_neg hc1, if_neg hc2]
    have h2 : ∀ l : List Win, (l.map clearTabs).map clearTabs = l.map clearTabs := by
      intro l
      induction l with
      | nil => rfl
      | cons x xs ih => simp only [List.map_cons, clearTabs_clearTabs, ih]
    rw [h2]
    simp only [groupStep_clear, noWidStep_clear]
  · intro hw ht w hwmem e hemem
    have hc2 : ¬(wins = [] ∨ tabs = []) := by
      intro h
      rcases h with h | h
      · exact hw h
      · exact ht h
    unfold _assign_tabs at hwmem
    rw [if_neg hc2] at hwmem
    set P1 : List Win × List Nat → Prop :=
      fun st => ∀ v ∈ st.1, ∀ e ∈ v.edge_tabs, e ∈ tabs.map tabEntry with hP1
    set P2 : List Win × Nat → Prop :=
      fun st => ∀ v ∈ st.1, ∀ e ∈ v.edge_tabs, e ∈ tabs.map tabEntry with hP2
    have hinit : P1 (wins.map clearTabs, []) := by
      intro v hv e he
      rcases List.mem_map.mp hv with ⟨u, _, rfl⟩
      exact absurd he (List.not_mem_nil e)
    have hstep1 : ∀ st wd, wd ∈ widKeys tabs → P1 st → P1 (groupStep wins tabs st wd) := by
      intro st wd _ hst
      unfold groupStep
      cases hpick : pick wins st.2 (widGroup tabs wd) (some wd) with
      | none => exact hst
      | some i =>
        intro v hv e he
        dsimp only at hv
        rcases mem_setAt hv with hmem | ⟨u, hu, rfl⟩
        · exact hst v hmem e he
        · rw [groupUpd_edge_tabs] at he
          rcases List.mem_append.mp he with h | h
          · exact hst u hu e h
          · rcases List.mem_map.mp h with ⟨tb, htb, rfl⟩
            exact List.mem_map.mpr ⟨tb, widGroup_sub htb, rfl⟩
    have h1 : P1 ((widKeys tabs).foldl (groupStep wins tabs) (wins.map clearTabs, [])) :=
      foldl_inv P1 (groupStep wins tabs) (widKeys tabs) (wins.map clearTabs, []) hinit hstep1
    set st1 := (widKeys tabs).foldl (groupStep wins tabs) (wins.map clearTabs, []) with hst1
    have hstep2 : ∀ st tab, tab ∈ noWid tabs → P2 st → P2 (noWidStep wins st1.2 st tab) := by
      intro st tab htab hst
      unfold noWidStep
      have hadd : ∀ (u : Win), (appendTab tab u).edge_tabs = u.edge_tabs ++ [tabEntry tab] :=
        fun u => rfl
      cases hbm : bestTitleMatch wins st1.2 tab.title with
      | some i =>
        intro v hv e he
        dsimp only at hv
        rcases mem_setAt hv with hmem | ⟨u, hu, rfl⟩
        · exact hst v hmem e he
        · rw [hadd] at he
          rcases List.mem_append.mp he with h | h
          · exact hst u hu e h
          · rcases List.mem_cons.mp h with rfl | h
            · exact List.mem_map.mpr ⟨tab, noWid_sub htab, rfl⟩
            · exact absurd h (List.not_mem_nil e)
      | none =>
        intro v hv e he
        dsimp only at hv
        rcases mem_setAt hv with hmem | ⟨u, hu, rfl⟩
        · exact hst v hmem e he
        · rw [hadd] at he
          rcases List.mem_append.mp he with h | h
          · exact hst u hu e h
          · rcases List.mem_cons.mp h with rfl | h
            · exact List.mem_map.mpr ⟨tab, noWid_sub htab, rfl⟩
            · exact absurd h (List.not_mem_nil e)
    have h2 : P2 ((noWid tabs).foldl (noWidStep wins st1.2) (st1.1, 0)) :=
      foldl_inv P2 (noWidStep wins st1.2) (noWid tabs) (st1.1, 0) (fun v hv => h1 v hv) hstep2
    exact h2 w hwmem e hemem

/-- Witness for C10: an empty window list and an empty tab list leave
the input untouched; with a window carrying a stale saved tab, the run
gives the same result as with the tab pre-cleared, and the resulting
entries all come from the input tab list. -/
theorem C10_assign_resets_tabs_witness :
    _assign_tabs ([] : List Win) [{ url := "u" }] = [] ∧
    _assign_tabs [{ title := "a", edge_tabs := [{ url := "old" }] }]
      [] = [{ title := "a", edge_tabs := [{ url := "old" }] }] ∧
    _assign_tabs ([{ title := "a", edge_tabs := [{ url := "old" }] }].map clearTabs)
        [{ url := "u" }] =
      _assign_tabs [{ title := "a", edge_tabs := [{ url := "old" }] }] [{ url := "u" }] ∧
    (∀ w ∈ _assign_tabs [{ title := "a", edge_tabs := [{ url := "old" }] }] [{ url := "u" }],
      ∀ e ∈ w.edge_tabs, e ∈ [({ url := "u" } : TabIn)].map tabEntry) :=
  ⟨(C10_assign_resets_tabs [] [{ url := "u" }]).1 (Or.inl rfl),
   (C10_assign_resets_tabs [{ title := "a", edge_tabs := [{ url := "old" }] }] []).1 (Or.inr rfl),
   (C10_assign_resets_tabs [{ title := "a", edge_tabs := [{ url := "old" }] }]
      [{ url := "u" }]).2.1 (List.cons_ne_nil _ _) (List.cons_ne_nil _ _),
   (C10_assign_resets_tabs [{ title := "a", edge_tabs := [{ url := "old" }] }]
      [{ url := "u" }]).2.2 (List.cons_ne_nil _ _) (List.cons_ne_nil _ _)⟩


lemma setAt_length (ws : List Win) (i : Nat) (f : Win → Win) :
    (setAt ws i f).length = ws.length := by
  induction ws generalizing i with
  | nil => rfl
  | cons x xs ih => cases i with
    | zero => rfl
    | succ n => simp [setAt, ih]

lemma totalTabs_setAt {ws : List Win} {i : Nat} {f : Win → Win} {k : Nat}
    (hf : ∀ w, ((f w).edge_tabs).length = w.edge_tabs.length + k) (hi : i < ws.length) :
    totalTabs (setAt ws i f) = totalTabs ws + k := by
  induction ws generalizing i with
  | nil => exact absurd hi (by simp)
  | cons x xs ih =>
    cases i with
    | zero =>
      show (f x).edge_tabs.length + totalTabs xs = x.edge_tabs.length + totalTabs xs + k
      rw [hf x]
      omega
    | succ n =>
      show x.edge_tabs.length + totalTabs (setAt xs n f) =
        x.edge_tabs.length + totalTabs xs + k
      rw [ih (Nat.lt_of_succ_lt_succ hi)]
      omega

lemma totalTabs_clear (wins : List Win) : totalTabs (wins.map clearTabs) = 0 := by
  induction wins with
  | nil => rfl
  | cons x xs ih =>
    show (clearTabs x).edge_tabs.length + totalTabs (xs.map clearTabs) = 0
    rw [ih]
    rfl

lemma bestTitleMatch_spec {wins : List Win} {a : List Nat} {s : String} {i : Nat}
    (h : bestTitleMatch wins a s = some i) : i < wins.length ∧ i ∉ a := by
  unfold bestTitleMatch at h
  dsimp only at h
  set step := fun (acc : Option Nat × ℚ) (j : Nat) =>
    if j ∈ a then acc
    else
      let wt := _strip_edge_suffix (wins.getD j default).title
      let wtToks := pyTokens wt
      if pyTokens (_strip_edge_suffix s) = [] ∨ wtToks = [] then acc
      else
        let ov := jaccardToks (pyTokens (_strip_edge_suffix s)) wtToks
        if acc.2 < ov then (some j, ov) else acc with hstep
  have key : ∀ (l : List Nat) (acc : Option Nat × ℚ),
      (∀ j, acc.1 = some j → j < wins.length ∧ j ∉ a) →
      (∀ j ∈ l, j < wins.length) →
      ∀ j, (l.foldl step acc).1 = some j → j < wins.length ∧ j ∉ a := by
    intro l
    induction l with
    | nil => intro acc hacc _ j hj; exact hacc j hj
    | cons x xs ih =>
      intro acc hacc hl j hj
      refine ih (step acc x) ?_ (fun j hj => hl j (List.mem_cons_of_mem x hj)) j hj
      intro j' hj'
      rw [hstep] at hj'
      dsimp only at hj'
      split_ifs at hj' with h1 h2 h3
      · exact hacc j' hj'
      · exact hacc j' hj'
      · dsimp only at hj'
        have hx := Option.some.inj hj'
        subst hx
        exact ⟨hl x (List.mem_cons_self _ _), h1⟩
      · exact hacc j' hj'
  split_ifs at h with hthr
  exact key (List.range wins.length) (none, 0)
    (fun j hj => Option.noConfusion hj)
    (fun j hj => List.mem_range.mp hj) i h


lemma hintIdx_lt {wins : List Win} {wd : Int} {i : Nat} (h : hintIdx wins wd = some i) :
    i < wins.length := by
  unfold hintIdx at h
  have hmem := List.mem_of_mem_getLast? (Option.mem_def.mpr h)
  have := List.mem_of_mem_filter hmem
  exact List.mem_range.mp this

lemma pickHint_spec {wins : List Win} {a : List Nat} {wd : Option Int} {i : Nat}
    (h : pickHint wins a wd = some i) : i < wins.length ∧ i ∉ a := by
  unfold pickHint at h
  rcases wd with _ | wv
  · exact Option.noConfusion h
  · dsimp only at h
    split_ifs at h with hz
    cases hh : hintIdx wins wv with
    | none => rw [hh] at h; exact Option.noConfusion h
    | some j =>
      rw [hh] at h
      dsimp only at h
      split_ifs at h with hja
      have hj := Option.some.inj h
      subst hj
      exact ⟨hintIdx_lt hh, hja⟩

lemma pickTitle_spec {wins : List Win} {a : List Nat} {g : List TabIn} {i : Nat}
    (h : pickTitle wins a g = some i) : i < wins.length ∧ i ∉ a := by
  obtain ⟨tab, _, hbm⟩ := List.exists_of_findSome?_eq_some h
  exact bestTitleMatch_spec hbm

lemma pickFirstFree_spec {wins : List Win} {a : List Nat} {i : Nat}
    (h : pickFirstFree wins a = some i) : i < wins.length ∧ i ∉ a := by
  refine ⟨List.mem_range.mp (List.mem_of_find?_eq_some h), ?_⟩
  have hp := List.find?_some h
  simpa using hp

lemma pick_spec {wins : List Win} {a : List Nat} {g : List TabIn} {wd : Option Int} {i : Nat}
    (h : pick wins a g wd = some i) : i < wins.length ∧ i ∉ a := by
  unfold pick at h
  cases hh : pickHint wins a wd with
  | some j =>
    rw [hh] at h
    exact Option.some.inj h ▸ pickHint_spec hh
  | none =>
    rw [hh] at h
    dsimp only at h
    cases ht : pickTitle wins a g with
    | some j =>
      rw [ht] at h
      exact Option.some.inj h ▸ pickTitle_spec ht
    | none =>
      rw [ht] at h
      dsimp only at h
      exact pickFirstFree_spec h

lemma pickFirstFree_isSome {wins : List Win} {a : List Nat}
    (hlt : a.length < wins.length) : (pickFirstFree wins a).isSome := by
  cases hp : pickFirstFree wins a with
  | some i => rfl
  | none =>
    exfalso
    have hall := List.find?_eq_none.mp hp
    have hsub : List.range wins.length ⊆ a := by
      intro i hi
      have := hall i hi
      simpa using this
    have hperm := List.subperm_of_subset (List.nodup_range wins.length) hsub
    have hle := hperm.length_le
    rw [List.length_range] at hle
    omega

lemma pick_isSome {wins : List Win} {a : List Nat} (g : List TabIn) (wd : Option Int)
    (hlt : a.length < wins.length) : (pick wins a g wd).isSome := by
  unfold pick
  cases hh : pickHint wins a wd with
  | some j => rfl
  | none =>
    dsimp only
    cases ht : pickTitle wins a g with
    | some j => rfl
    | none =>
      dsimp only
      exact pickFirstFree_isSome hlt


lemma groupUpd_len (wd : Int) (g : List TabIn) (w : Win) :
    ((groupUpd wd g w).edge_tabs).length = w.edge_tabs.length + g.length := by
  rw [groupUpd_edge_tabs, List.length_append, List.length_map]

lemma groupPhase (wins : List Win) (tabs : List TabIn) :
    ∀ (K : List Int) (ws : List Win) (a : List Nat),
      ws.length = wins.length → a.length + K.length ≤ wins.length →
      ((K.foldl (groupStep wins tabs) (ws, a)).1.length = wins.length ∧
       (K.foldl (groupStep wins tabs) (ws, a)).2.length = a.length + K.length ∧
       totalTabs (K.foldl (groupStep wins tabs) (ws, a)).1 =
         totalTabs ws + (K.map fun wd => (widGroup tabs wd).length).sum) := by
  intro K
  induction K with
  | nil =>
    intro ws a hl hb
    exact ⟨hl, by simp, by simp⟩
  | cons wd K ih =>
    intro ws a hl hb
    have hblt : a.length < wins.length := by
      simp only [List.length_cons] at hb
      omega
    have hsome := @pick_isSome wins a (widGroup tabs wd) (some wd) hblt
    obtain ⟨i, hi⟩ := Option.isSome_iff_exists.mp hsome
    obtain ⟨hilt, hia⟩ := pick_spec hi
    have hstep : groupStep wins tabs (ws, a) wd =
        (setAt ws i (groupUpd wd (widGroup tabs wd)), a ++ [i]) := by
      unfold groupStep
      rw [hi]
    rw [List.foldl_cons, hstep]
    obtain ⟨ha, hb2, hc⟩ := ih (setAt ws i (groupUpd wd (widGroup tabs wd))) (a ++ [i])
      (by rw [setAt_length, hl])
      (by simp only [List.length_append, List.length_cons, List.length_nil] at hb ⊢; omega)
    refine ⟨ha, ?_, ?_⟩
    · rw [hb2]
      simp only [List.length_append, List.length_cons, List.length_nil]
      omega
    · rw [hc, totalTabs_setAt (groupUpd_len wd (widGroup tabs wd)) (hl ▸ hilt)]
      simp only [List.map_cons, List.sum_cons]
      omega

lemma appendTab_len (tab : TabIn) (w : Win) :
    ((appendTab tab w).edge_tabs).length = w.edge_tabs.length + 1 := by
  unfold appendTab
  simp

lemma noWidPhase (wins : List Win) (A : List Nat) (hw : wins ≠ []) :
    ∀ (ts : List TabIn) (ws : List Win) (rr : Nat), ws.length = wins.length →
      (totalTabs ((ts.foldl (noWidStep wins A) (ws, rr)).1) = totalTabs ws + ts.length ∧
       ((ts.foldl (noWidStep wins A) (ws, rr)).1.length = wins.length)) := by
  intro ts
  induction ts with
  | nil =>
    intro ws rr hl
    exact ⟨by simp, hl⟩
  | cons t ts ih =>
    intro ws rr hl
    rw [List.foldl_cons]
    cases hbm : bestTitleMatch wins A t.title with
    | some i =>
      have hi := (bestTitleMatch_spec hbm).1
      have hstep : noWidStep wins A (ws, rr) t = (setAt ws i (appendTab t), rr) := by
        unfold noWidStep
        rw [hbm]
      rw [hstep]
      obtain ⟨h1, h2⟩ := ih (setAt ws i (appendTab t)) rr (by rw [setAt_length, hl])
      refine ⟨?_, h2⟩
      rw [h1, totalTabs_setAt (appendTab_len t) (hl ▸ hi)]
      simp only [List.length_cons]
      omega
    | none =>
      have hi : rr % wins.length < wins.length :=
        Nat.mod_lt _ (List.length_pos.mpr hw)
      have hstep : noWidStep wins A (ws, rr) t =
          (setAt ws (rr % wins.length) (appendTab t), rr + 1) := by
        unfold noWidStep
        rw [hbm]
      rw [hstep]
      obtain ⟨h1, h2⟩ := ih (setAt ws (rr % wins.length) (appendTab t)) (rr + 1)
        (by rw [setAt_length, hl])
      refine ⟨?_, h2⟩
      rw [h1, totalTabs_setAt (appendTab_len t) (hl ▸ hi)]
      simp only [List.length_cons]
      omega


lemma insertSorted_perm (x : Int) (l : List Int) :
    List.Perm (insertSorted x l) (x :: l) := by
  induction l with
  | nil => rfl
  | cons y ys ih =>
    unfold insertSorted
    split_ifs
    · rfl
    · exact (ih.cons y).trans (List.Perm.swap x y ys)

lemma sortInts_perm (l : List Int) : List.Perm (sortInts l) l := by
  induction l with
  | nil => rfl
  | cons x xs ih =>
    show List.Perm (insertSorted x (sortInts xs)) (x :: xs)
    exact (insertSorted_perm x (sortInts xs)).trans (ih.cons x)

lemma widKeys_nodup (tabs : List TabIn) : (widKeys tabs).Nodup :=
  ((sortInts_perm _).nodup_iff).mpr (List.nodup_dedup _)

lemma widKeys_complete {tabs : List TabIn} {t : TabIn} {w : Int}
    (ht : t ∈ tabs) (hp : posWid t = some w) : w ∈ widKeys tabs :=
  (sortInts_perm _).mem_iff.mpr (List.mem_dedup.mpr (List.mem_filterMap.mpr ⟨t, ht, hp⟩))


lemma sum_map_add (K : List Int) (f g : Int → Nat) :
    (K.map fun wd => f wd + g wd).sum = (K.map f).sum + (K.map g).sum := by
  induction K with
  | nil => rfl
  | cons x xs ih =>
    simp only [List.map_cons, List.sum_cons, ih]
    omega

lemma sum_map_ite_zero (K : List Int) {w : Int} (hw : w ∉ K) :
    (K.map fun wd => if w = wd then (1 : Nat) else 0).sum = 0 := by
  induction K with
  | nil => rfl
  | cons x xs ih =>
    simp only [List.map_cons, List.sum_cons]
    rw [if_neg (fun hx => hw (by rw [hx]; exact List.mem_cons_self _ _)),
      ih (fun hx => hw (List.mem_cons_of_mem _ hx))]

lemma sum_map_ite_one (K : List Int) {w : Int} (hn : K.Nodup) (hm : w ∈ K) :
    (K.map fun wd => if w = wd then (1 : Nat) else 0).sum = 1 := by
  induction K with
  | nil => exact absurd hm (List.not_mem_nil w)
  | cons x xs ih =>
    simp only [List.map_cons, List.sum_cons]
    rcases List.mem_cons.mp hm with rfl | hmem
    · rw [if_pos rfl, sum_map_ite_zero xs (List.nodup_cons.mp hn).1]
    · have hne : ¬ (w = x) := by
        intro hx
        exact (List.nodup_cons.mp hn).1 (by rw [← hx]; exact hmem)
      rw [if_neg hne, ih (List.nodup_cons.mp hn).2 hmem]


lemma groups_partition (K : List Int) (hn : K.Nodup) :
    ∀ tabs : List TabIn, (∀ t ∈ tabs, ∀ w, posWid t = some w → w ∈ K) →
      (K.map fun wd => (widGroup tabs wd).length).sum =
        (tabs.filter fun t => posWid t ≠ none).length := by
  intro tabs
  induction tabs with
  | nil =>
    intro _
    have hz : (K.map fun wd => (widGroup ([] : List TabIn) wd).length) = K.map fun _ => 0 :=
      List.map_congr_left fun wd _ => rfl
    rw [hz]
    simp
  | cons t ts ih =>
    intro hcomp
    have hts := fun t' ht' => hcomp t' (List.mem_cons_of_mem _ ht')
    have hmapeq : (K.map fun wd => (widGroup (t :: ts) wd).length) =
        K.map fun wd => (if posWid t = some wd then 1 else 0) + (widGroup ts wd).length :=
      List.map_congr_left fun wd _ => by
        unfold widGroup
        rw [List.filter_cons]
        by_cases hp : posWid t = some wd
        · rw [if_pos (by simp [hp]), if_pos hp]
          simp only [List.length_cons]
          omega
        · rw [if_neg (by simp [hp]), if_neg hp]
          simp
    rw [hmapeq, sum_map_add, ih hts]
    have hfil : ((t :: ts).filter fun t' => posWid t' ≠ none).length =
        (if posWid t = none then 0 else 1) +
          ((ts.filter fun t' => posWid t' ≠ none).length) := by
      rw [List.filter_cons]
      by_cases hp : posWid t = none
      · rw [if_neg (by simp [hp]), if_pos hp]
        simp
      · rw [if_pos (by simp [hp]), if_neg hp]
        simp only [List.length_cons]
        omega
    rw [hfil]
    cases hp : posWid t with
    | none =>
      have hz : (K.map fun wd => if (none : Option Int) = some wd then (1 : Nat) else 0) =
          K.map fun _ => 0 := by
        apply List.map_congr_left
        intro wd _
        simp
      rw [hz]
      simp
    | some w =>
      have hmem : w ∈ K := hcomp t (List.mem_cons_self _ _) w hp
      have heq : (K.map fun wd => if (some w : Option Int) = some wd then (1 : Nat) else 0) =
          K.map fun wd => if w = wd then (1 : Nat) else 0 := by
        apply List.map_congr_left
        intro wd _
        simp
      rw [heq, sum_map_ite_one K hn hmem]
      simp

lemma posWid_split (tabs : List TabIn) :
    (tabs.filter fun t => posWid t ≠ none).length + (noWid tabs).length = tabs.length := by
  unfold noWid
  induction tabs with
  | nil => rfl
  | cons t ts ih =>
    rw [List.filter_cons, List.filter_cons]
    by_cases hp : posWid t = none
    · rw [if_neg (by simp [hp]), if_pos (by simp [hp])]
      simp only [List.length_cons]
      omega
    · rw [if_pos (by simp [hp]), if_neg (by simp [hp])]
      simp only [List.length_cons]
      omega


/-- C2 (amended): capture-time tab assignment conserves tabs whenever the
number of distinct positive CDP windowIds does not exceed the number of
saved Edge windows (in particular always for fully ungrouped inputs);
when there are more windowId groups than windows, each excess group is
dropped whole. -/
theorem C2_tab_conservation_amended (wins : List Win) (tabs : List TabIn)
    (hw : wins ≠ []) (ht : tabs ≠ []) (hk : (widKeys tabs).length ≤ wins.length) :
    totalTabs (_assign_tabs wins tabs) = tabs.length := by
  have hc : ¬(wins = [] ∨ tabs = []) := fun h => h.elim hw ht
  unfold _assign_tabs
  rw [if_neg hc]
  obtain ⟨hlen1, _, htot1⟩ := groupPhase wins tabs (widKeys tabs) (wins.map clearTabs) []
    (by simp) (by simpa using hk)
  obtain ⟨htot2, _⟩ := noWidPhase wins
    ((widKeys tabs).foldl (groupStep wins tabs) (wins.map clearTabs, [])).2 hw
    (noWid tabs) ((widKeys tabs).foldl (groupStep wins tabs) (wins.map clearTabs, [])).1 0 hlen1
  rw [htot2, htot1, totalTabs_clear]
  rw [groups_partition (widKeys tabs) (widKeys_nodup tabs) tabs
    (fun t ht' w hp => widKeys_complete ht' hp)]
  have hsplit := posWid_split tabs
  omega

/-- Counterexample for C2 as stated: one saved Edge window and two tabs
carrying distinct positive windowIds — the first group claims the only
window, the second group finds no unassigned window and is dropped, so
the assigned total is 1 while the input holds 2 tabs. -/
theorem C2_counterexample :
    totalTabs (_assign_tabs [{ process_name := "msedge.exe" }]
      [{ url := "u1", window_id := some 1 }, { url := "u2", window_id := some 2 }]) = 1 ∧
    ([({ url := "u1", window_id := some 1 } : TabIn),
      { url := "u2", window_id := some 2 }].length) = 2 := by
  constructor
  · decide
  · rfl

/-- Witness for C2: two windows, one grouped and two ungrouped tabs —
all three tabs are conserved. -/
theorem C2_tab_conservation_amended_witness :
    totalTabs (_assign_tabs [{ title := "aa" }, { title := "bb" }]
      [{ url := "u1", window_id := some 9 }, { url := "u2" }, { url := "u3" }]) =
      ([({ url := "u1", window_id := some 9 } : TabIn),
        { url := "u2" }, { url := "u3" }].length) :=
  C2_tab_conservation_amended [{ title := "aa" }, { title := "bb" }]
    [{ url := "u1", window_id := some 9 }, { url := "u2" }, { url := "u3" }]
    (List.cons_ne_nil _ _) (List.cons_ne_nil _ _) (by decide)



lemma mapFromIdx_idem (f : Nat → Win → Win) (hf : ∀ i w, f i (f i w) = f i w) :
    ∀ (ws : List Win) (k : Nat), mapFromIdx f k (mapFromIdx f k ws) = mapFromIdx f k ws := by
  intro ws
  induction ws with
  | nil => intro k; rfl
  | cons w ws ih =>
    intro k
    show f k (f k w) :: mapFromIdx f (k + 1) (mapFromIdx f (k + 1) ws) =
      f k w :: mapFromIdx f (k + 1) ws
    rw [hf k w, ih (k + 1)]

lemma ensureIdUpd_idem (fresh : Nat → String) (hf : ∀ n, sTrim (fresh n) ≠ "")
    (i : Nat) (w : Win) : ensureIdUpd fresh i (ensureIdUpd fresh i w) = ensureIdUpd fresh i w := by
  unfold ensureIdUpd
  by_cases hb : sTrim w.window_id = ""
  · rw [if_pos hb]
    rw [if_neg (show ¬(sTrim ({ w with window_id := fresh i } : Win).window_id = "") from hf i)]
  · rw [if_neg hb, if_neg hb]

lemma ensure_ids_idem (fresh : Nat → String) (hf : ∀ n, sTrim (fresh n) ≠ "")
    (ws : List Win) : _ensure_ids fresh (_ensure_ids fresh ws) = _ensure_ids fresh ws := by
  unfold _ensure_ids
  exact mapFromIdx_idem (ensureIdUpd fresh) (ensureIdUpd_idem fresh hf) ws 0

/-- C3 (spec-modelled migrator): `migrate` is idempotent, a layout
already carrying the current schema is returned unchanged except for
ensured window ids, and a legacy layout is stamped to the current schema
with both legacy tab keys dropped. -/
theorem C3_migration_idempotent (fresh : Nat → String) (d : LayoutFile)
    (hf : ∀ n, sTrim (fresh n) ≠ "") :
    migrate fresh (migrate fresh d) = migrate fresh d ∧
    (d.schema = SCHEMA_V2 →
      migrate fresh d = { d with windows := _ensure_ids fresh d.windows }) ∧
    (d.schema ≠ SCHEMA_V2 →
      (migrate fresh d).schema = SCHEMA_V2 ∧ (migrate fresh d).browser_tabs = none ∧
        (migrate fresh d).open_urls = none) := by
  refine ⟨?_, ?_, ?_⟩
  · by_cases hd : d.schema = SCHEMA_V2
    · have h1 : migrate fresh d = { d with windows := _ensure_ids fresh d.windows } := by
        unfold migrate
        rw [if_pos hd]
      rw [h1]
      unfold migrate
      rw [if_pos (show ({ d with windows := _ensure_ids fresh d.windows } : LayoutFile).schema
          = SCHEMA_V2 from hd)]
      show ({ d with windows := _ensure_ids fresh (_ensure_ids fresh d.windows) } : LayoutFile) = _
      rw [ensure_ids_idem fresh hf]
    · have h1 : migrate fresh d =
          { schema := SCHEMA_V2
            created_at := d.created_at
            windows := _ensure_ids fresh (replaceSubseq isEdgeWin d.windows
              (_assign_tabs (d.windows.filter isEdgeWin) (legacyTabs d)))
            browser_tabs := none
            open_urls := none } := by
        unfold migrate
        rw [if_neg hd]
      rw [h1]
      unfold migrate
      rw [if_pos rfl]
      show ({ schema := SCHEMA_V2
              created_at := d.created_at
              windows := _ensure_ids fresh (_ensure_ids fresh (replaceSubseq isEdgeWin d.windows
                (_assign_tabs (d.windows.filter isEdgeWin) (legacyTabs d))))
              browser_tabs := none
              open_urls := none } : LayoutFile) = _
      rw [ensure_ids_idem fresh hf]
  · intro hd
    unfold migrate
    rw [if_pos hd]
  · intro hd
    unfold migrate
    rw [if_neg hd]
    exact ⟨rfl, rfl, rfl⟩

/-- A concrete legacy-shaped layout used by the C3 witness. -/
def c3layout : LayoutFile :=
  { schema := "window-layout.v1"
    windows := [{ process_name := "msedge.exe", title := "Edge" }]
    browser_tabs :=
      some { debug_port := 9222, tabs := [{ title := "Tab", url := "https://example.com" }] } }

/-- Witness for C3 at a concrete legacy layout: migrating twice equals
migrating once, and the legacy keys are dropped with the schema stamped. -/
theorem C3_migration_idempotent_witness :
    migrate (fun _ => "w") (migrate (fun _ => "w") c3layout) =
      migrate (fun _ => "w") c3layout ∧
    (migrate (fun _ => "w") c3layout).schema = SCHEMA_V2 ∧
    (migrate (fun _ => "w") c3layout).browser_tabs = none :=
  ⟨(C3_migration_idempotent (fun _ => "w") c3layout
      (fun _ => (by decide : sTrim "w" ≠ ""))).1,
   ((C3_migration_idempotent (fun _ => "w") c3layout
      (fun _ => (by decide : sTrim "w" ≠ ""))).2.2 (by decide)).1,
   ((C3_migration_idempotent (fun _ => "w") c3layout
      (fun _ => (by decide : sTrim "w" ≠ ""))).2.2 (by decide)).2.1⟩



lemma mem_insertRanked {l : List (Win × Nat)} {x y : Win × Nat} :
    y ∈ insertRanked l x ↔ y = x ∨ y ∈ l := by
  induction l with
  | nil => simp [insertRanked]
  | cons z zs ih =>
    unfold insertRanked
    split_ifs
    · simp
    · rw [List.mem_cons, ih, List.mem_cons]
      tauto

lemma mem_sortRanked_aux (l : List (Win × Nat)) :
    ∀ (acc : List (Win × Nat)) (y : Win × Nat),
      y ∈ l.foldl insertRanked acc ↔ y ∈ acc ∨ y ∈ l := by
  induction l with
  | nil => intro acc y; simp
  | cons x xs ih =>
    intro acc y
    rw [List.foldl_cons, ih, mem_insertRanked, List.mem_cons]
    tauto

lemma rank_mem_not_used {target : Win} {current : List Win} {used : List Int}
    {b : Win × Nat} (hb : b ∈ _rank_candidates target current used) :
    b.1.hwnd ∉ used := by
  unfold _rank_candidates at hb
  rw [show sortRanked = fun l => l.foldl insertRanked [] from rfl] at hb
  rw [mem_sortRanked_aux] at hb
  rcases hb with hb | hb
  · exact absurd hb (List.not_mem_nil b)
  · rcases List.mem_map.mp hb with ⟨c, hc, rfl⟩
    have hp := List.of_mem_filter hc
    have := of_decide_eq_true hp
    exact this.1

lemma rank_head_not_used {target : Win} {current : List Win} {used : List Int}
    {b : Win × Nat} (hb : (_rank_candidates target current used).head? = some b) :
    b.1.hwnd ∉ used := by
  obtain ⟨ys, hys⟩ := List.head?_eq_some_iff.mp hb
  exact rank_mem_not_used (by rw [hys]; exact List.mem_cons_self _ _)

end WinLayout
namespace WinLayout

/-- The exclusivity invariant: claimed handles are pairwise distinct and
all recorded in the used-set. -/
def ExcInv (st : RestoreState) : Prop :=
  (st.claimed.map Prod.snd).Nodup ∧ ∀ h ∈ st.claimed.map Prod.snd, h ∈ st.used

lemma excInv_claim {st : RestoreState} (i : Nat) {h : Int} (hinv : ExcInv st)
    (hnu : h ∉ st.used) :
    ExcInv { st with used := st.used ++ [h], claimed := st.claimed ++ [(i, h)] } := by
  obtain ⟨hnd, hsub⟩ := hinv
  constructor
  · show ((st.claimed ++ [(i, h)]).map Prod.snd).Nodup
    rw [List.map_append]
    apply List.Nodup.append hnd (by simp)
    intro a ha hb
    simp only [List.map_cons, List.map_nil, List.mem_cons, List.not_mem_nil, or_false] at hb
    subst hb
    exact hnu (hsub a ha)
  · intro h' hh'
    rw [List.map_append] at hh'
    rcases List.mem_append.mp hh' with hm | hm
    · exact List.mem_append_left _ (hsub h' hm)
    · simp only [List.map_cons, List.map_nil, List.mem_cons, List.not_mem_nil, or_false] at hm
      subst hm
      exact List.mem_append_right _ (List.mem_cons_self _ _)

lemma excInv_same {st st' : RestoreState} (hinv : ExcInv st)
    (hu : st'.used = st.used) (hc : st'.claimed = st.claimed) : ExcInv st' := by
  unfold ExcInv
  rw [hu, hc]
  exact hinv

lemma matchStep_excInv (mons : List MonitorInfo) (current : List Win) (de : Bool)
    (p f co : Int → Bool) (st : RestoreState) (it : Nat × Win) (hinv : ExcInv st) :
    ExcInv (matchStep mons current de p f co st it) := by
  unfold matchStep
  split_ifs with hcr
  · exact hinv
  dsimp only
  cases hh : (_rank_candidates it.2 current st.used).head? with
  | none => split_ifs <;> exact excInv_same hinv rfl rfl
  | some best =>
    have hclaim := excInv_claim it.1 hinv (rank_head_not_used hh)
    dsimp only
    by_cases hsc : best.2 < min_score
    · rw [if_pos hsc]
      split_ifs <;> exact excInv_same hinv rfl rfl
    · rw [if_neg hsc]
      split_ifs with hde hco
      · exact excInv_same hclaim rfl rfl
      · exact excInv_same hclaim rfl rfl
      · cases happ : _apply_placement mons (p best.1.hwnd) (f best.1.hwnd) best.1.hwnd it.2 with
        | none => exact excInv_same hclaim rfl rfl
        | some res =>
          dsimp only
          split_ifs with hres
          · exact excInv_same hclaim rfl rfl
          · exact excInv_same hclaim rfl rfl

lemma rematchStep_excInv (mons : List MonitorInfo) (targets current2 : List Win)
    (p f : Int → Bool) (stp : RestoreState × List Nat) (i : Nat) (hinv : ExcInv stp.1) :
    ExcInv (rematchStep mons targets current2 p f stp i).1 := by
  unfold rematchStep
  split_ifs with hcr
  · exact hinv
  dsimp only
  cases hh : (_rank_candidates (targets.getD i default) current2 stp.1.used).head? with
  | none => exact excInv_same hinv rfl rfl
  | some best =>
    have hclaim := excInv_claim i hinv (rank_head_not_used hh)
    dsimp only
    by_cases hsc : best.2 < min_score
    · rw [if_pos hsc]
      exact excInv_same hinv rfl rfl
    · rw [if_neg hsc]
      cases happ : _apply_placement mons (p best.1.hwnd) (f best.1.hwnd) best.1.hwnd
          (targets.getD i default) with
      | none => exact excInv_same hclaim rfl rfl
      | some res =>
        dsimp only
        split_ifs with hres
        · exact excInv_same hclaim rfl rfl
        · exact excInv_same hclaim rfl rfl

/-- C6: across the matching pass and the post-launch re-matching pass of
a restore run, no live window handle is claimed for more than one saved
target — the list of (target, hwnd) claims has pairwise distinct
handles. -/
theorem C6_greedy_exclusivity (mons : List MonitorInfo)
    (targets current current2 : List Win) (lm et de : Bool)
    (p1 f1 p2 f2 co : Int → Bool) (lo : Nat → Bool) :
    (((restoreCore mons targets current current2 lm et de p1 f1 p2 f2 co lo).1.claimed).map
      Prod.snd).Nodup := by
  have hfold1 : ∀ (l : List (Nat × Win)) (st : RestoreState), ExcInv st →
      ExcInv (l.foldl (matchStep mons current de p1 f1 co) st) := by
    intro l
    induction l with
    | nil => intro st h; exact h
    | cons x xs ih =>
      intro st h
      exact ih _ (matchStep_excInv mons current de p1 f1 co st x h)
  have hfold2 : ∀ (l : List Nat) (stp : RestoreState × List Nat), ExcInv stp.1 →
      ExcInv (l.foldl (rematchStep mons targets current2 p2 f2) stp).1 := by
    intro l
    induction l with
    | nil => intro stp h; exact h
    | cons x xs ih =>
      intro stp h
      exact ih _ (rematchStep_excInv mons targets current2 p2 f2 stp x h)
  have hinit : ExcInv ({} : RestoreState) := ⟨List.nodup_nil, fun h hh => absurd hh (by simp)⟩
  have h1 := hfold1 targets.enum ({} : RestoreState) hinit
  have h2 := hfold2
    ((targets.enum.foldl (matchStep mons current de p1 f1 co) ({} : RestoreState)).missing)
    ((targets.enum.foldl (matchStep mons current de p1 f1 co) ({} : RestoreState)), []) h1
  unfold restoreCore
  dsimp only
  split_ifs with hcr hlaunch hl0 hc2 <;> first | exact h1.1 | exact h2.1


/-- Whether a model run ended in a raised (fatal) error. -/
def exIsErr {α : Type} : Except String α → Bool
  | .error _ => true
  | .ok _ => false

lemma apply_ne_none (mons : List MonitorInfo) (p f : Bool) (h : Int) (e : Win)
    (hle : (rrOf e).length ≤ 4) : _apply_placement mons p f h e ≠ none := by
  unfold _apply_placement
  dsimp only
  split_ifs <;> intro hc <;> try exact Option.noConfusion hc
  all_goals omega

lemma snd_mem_of_mem_enumFrom {l : List Win} :
    ∀ {n : Nat} {it : Nat × Win}, it ∈ List.enumFrom n l → it.2 ∈ l := by
  induction l with
  | nil => intro n it hit; simp [List.enumFrom] at hit
  | cons x xs ih =>
    intro n it hit
    simp only [List.enumFrom, List.mem_cons] at hit
    rcases hit with rfl | hit
    · exact List.mem_cons_self _ _
    · exact List.mem_cons_of_mem _ (ih hit)

lemma length_enumFrom (l : List Win) : ∀ n, (List.enumFrom n l).length = l.length := by
  induction l with
  | nil => intro n; rfl
  | cons x xs ih => intro n; simp [List.enumFrom, ih]

lemma getD_rect_le {targets : List Win} (h : ∀ t ∈ targets, (rrOf t).length ≤ 4) (i : Nat) :
    (rrOf (targets.getD i default)).length ≤ 4 := by
  rw [List.getD_eq_getElem?_getD]
  cases hg : targets[i]? with
  | none => decide
  | some t =>
    obtain ⟨hlt, rfl⟩ := List.getElem?_eq_some.mp hg
    exact h _ (List.getElem_mem hlt)

lemma matchStep_ok (mons : List MonitorInfo) (current : List Win) (de : Bool)
    (p f co : Int → Bool) (st : RestoreState) (it : Nat × Win)
    (hrect : (rrOf it.2).length ≤ 4) (hcr : st.crashed = false) :
    (matchStep mons current de p f co st it).crashed = false ∧
    (matchStep mons current de p f co st it).applied +
      (matchStep mons current de p f co st it).skipped +
      (matchStep mons current de p f co st it).missing.length =
    st.applied + st.skipped + st.missing.length + 1 := by
  unfold matchStep
  rw [if_neg (by rw [hcr]; exact Bool.false_ne_true)]
  dsimp only
  cases hh : (_rank_candidates it.2 current st.used).head? with
  | none =>
    refine ⟨hcr, ?_⟩
    split_ifs <;> simp [List.length_append] <;> omega
  | some best =>
    dsimp only
    by_cases hsc : best.2 < min_score
    · rw [if_pos hsc]
      refine ⟨hcr, ?_⟩
      split_ifs <;> simp [List.length_append] <;> omega
    · rw [if_neg hsc]
      split_ifs with hde hco
      · exact ⟨hcr, by simp [List.length_append] <;> omega⟩
      · exact ⟨hcr, by simp [List.length_append] <;> omega⟩
      · cases happ : _apply_placement mons (p best.1.hwnd) (f best.1.hwnd) best.1.hwnd it.2 with
        | none => exact absurd happ (apply_ne_none _ _ _ _ _ hrect)
        | some res =>
          dsimp only
          split_ifs with hres
          · exact ⟨hcr, by dsimp only; omega⟩
          · exact ⟨hcr, by dsimp only; omega⟩

lemma matchFold_ok (mons : List MonitorInfo) (current : List Win) (de : Bool)
    (p f co : Int → Bool) (l : List (Nat × Win)) (st : RestoreState) :
    (∀ it ∈ l, (rrOf it.2).length ≤ 4) → st.crashed = false →
    (l.foldl (matchStep mons current de p f co) st).crashed = false ∧
    (l.foldl (matchStep mons current de p f co) st).applied +
      (l.foldl (matchStep mons current de p f co) st).skipped +
      (l.foldl (matchStep mons current de p f co) st).missing.length =
    st.applied + st.skipped + st.missing.length + l.length := by
  induction l generalizing st with
  | nil => intro hl hcr; exact ⟨hcr, by simp⟩
  | cons x xs ih =>
    intro hl hcr
    have hx := matchStep_ok mons current de p f co st x (hl x (List.mem_cons_self _ _)) hcr
    have hrest := ih (matchStep mons current de p f co st x)
      (fun it hit => hl it (List.mem_cons_of_mem _ hit)) hx.1
    refine ⟨hrest.1, ?_⟩
    simp only [List.foldl_cons, List.length_cons]
    omega

lemma rematchStep_ok (mons : List MonitorInfo) (targets current2 : List Win)
    (p f : Int → Bool) (stp : RestoreState × List Nat) (i : Nat)
    (hrect : (rrOf (targets.getD i default)).length ≤ 4) (hcr : stp.1.crashed = false) :
    (rematchStep mons targets current2 p f stp i).1.crashed = false ∧
    (rematchStep mons targets current2 p f stp i).1.applied +
      (rematchStep mons targets current2 p f stp i).1.skipped +
      (rematchStep mons targets current2 p f stp i).2.length =
    stp.1.applied + stp.1.skipped + stp.2.length + 1 := by
  unfold rematchStep
  rw [if_neg (by rw [hcr]; exact Bool.false_ne_true)]
  dsimp only
  cases hh : (_rank_candidates (targets.getD i default) current2 stp.1.used).head? with
  | none => exact ⟨hcr, by dsimp only; simp only [List.length_append, List.length_cons, List.length_nil]; omega⟩
  | some best =>
    dsimp only
    by_cases hsc : best.2 < min_score
    · rw [if_pos hsc]
      exact ⟨hcr, by dsimp only; simp only [List.length_append, List.length_cons, List.length_nil]; omega⟩
    · rw [if_neg hsc]
      cases happ : _apply_placement mons (p best.1.hwnd) (f best.1.hwnd) best.1.hwnd
          (targets.getD i default) with
      | none => exact absurd happ (apply_ne_none _ _ _ _ _ hrect)
      | some res =>
        dsimp only
        split_ifs with hres
        · exact ⟨hcr, by dsimp only; omega⟩
        · exact ⟨hcr, by dsimp only; omega⟩

lemma rematchFold_ok (mons : List MonitorInfo) (targets current2 : List Win)
    (p f : Int → Bool) (l : List Nat) (stp : RestoreState × List Nat)
    (hl : ∀ t ∈ targets, (rrOf t).length ≤ 4) :
    stp.1.crashed = false →
    (l.foldl (rematchStep mons targets current2 p f) stp).1.crashed = false ∧
    (l.foldl (rematchStep mons targets current2 p f) stp).1.applied +
      (l.foldl (rematchStep mons targets current2 p f) stp).1.skipped +
      (l.foldl (rematchStep mons targets current2 p f) stp).2.length =
    stp.1.applied + stp.1.skipped + stp.2.length + l.length := by
  induction l generalizing stp with
  | nil => intro hcr; exact ⟨hcr, by simp⟩
  | cons x xs ih =>
    intro hcr
    have hx := rematchStep_ok mons targets current2 p f stp x (getD_rect_le hl x) hcr
    have hrest := ih (rematchStep mons targets current2 p f stp x) hx.1
    refine ⟨hrest.1, ?_⟩
    simp only [List.foldl_cons, List.length_cons]
    omega

lemma restoreCore_ok (mons : List MonitorInfo) (targets current current2 : List Win)
    (lm et de : Bool) (p1 f1 p2 f2 co : Int → Bool) (lo : Nat → Bool)
    (h : ∀ t ∈ targets, (rrOf t).length ≤ 4) :
    (restoreCore mons targets current current2 lm et de p1 f1 p2 f2 co lo).1.crashed = false ∧
    (restoreCore mons targets current current2 lm et de p1 f1 p2 f2 co lo).1.applied +
      (restoreCore mons targets current current2 lm et de p1 f1 p2 f2 co lo).1.skipped =
    targets.length := by
  have h1 := matchFold_ok mons current de p1 f1 co targets.enum ({} : RestoreState)
    (fun it hit => h it.2 (snd_mem_of_mem_enumFrom hit)) rfl
  have hlen : targets.enum.length = targets.length := length_enumFrom targets 0
  have h2 := rematchFold_ok mons targets current2 p2 f2
    ((targets.enum.foldl (matchStep mons current de p1 f1 co) ({} : RestoreState)).missing)
    ((targets.enum.foldl (matchStep mons current de p1 f1 co) ({} : RestoreState)), []) h h1.1
  unfold restoreCore
  dsimp only
  split_ifs with hcr hlaunch hl0 hc2
  · exact absurd hcr (by rw [h1.1]; exact Bool.false_ne_true)
  · exact absurd hc2 (by rw [h2.1]; exact Bool.false_ne_true)
  · constructor
    · exact h2.1
    · simp only [List.length_nil] at h2
      have h1n := h1.2
      have h2n := h2.2
      dsimp only at h1n h2n ⊢
      simp only [List.length_nil] at h1n h2n
      omega
  · constructor
    · exact h1.1
    · have h1n := h1.2
      dsimp only at h1n ⊢
      simp only [List.length_nil] at h1n
      omega
  · constructor
    · exact h1.1
    · have h1n := h1.2
      dsimp only at h1n ⊢
      simp only [List.length_nil] at h1n
      omega

/-- C4: under the hypothesis that every (non-blocked) saved entry carries a
rect list of at most four numbers, the restore model raises an error exactly
for a missing/unparsable file or an unrecognised schema, and otherwise
completes with every target counted as applied or skipped. -/
theorem C4_restore_fatal_amended (file : Option LayoutFile) (mons : List MonitorInfo)
    (current current2 : List Win) (lm et de : Bool)
    (p1 f1 p2 f2 co : Int → Bool) (lo : Nat → Bool)
    (hrect : ∀ d, file = some d → ∀ t ∈ restoreTargets d, (rrOf t).length ≤ 4) :
    (exIsErr (restore_layout_model file mons current current2 lm et de p1 f1 p2 f2 co lo) =
        true ↔ file = none ∨ ∃ d, file = some d ∧ sTrim d.schema ≠ SCHEMA) ∧
    ∀ d, file = some d → sTrim d.schema = SCHEMA →
      ∃ st n, restore_layout_model file mons current current2 lm et de p1 f1 p2 f2 co lo =
          .ok (st, n) ∧ st.applied + st.skipped = (restoreTargets d).length := by
  cases file with
  | none =>
    refine ⟨⟨fun _ => Or.inl rfl, fun _ => rfl⟩, ?_⟩
    intro d hd
    exact absurd hd (by simp)
  | some d =>
    by_cases hs : sTrim d.schema = SCHEMA
    · have hco := restoreCore_ok mons (restoreTargets d) current current2 lm et de p1 f1 p2 f2
        co lo (hrect d rfl)
      have hne : ¬ sTrim d.schema ≠ SCHEMA := not_not_intro hs
      have hmodel : restore_layout_model (some d) mons current current2 lm et de p1 f1 p2 f2
          co lo = .ok (restoreCore mons (restoreTargets d) current current2 lm et de p1 f1 p2
            f2 co lo) := by
        unfold restore_layout_model
        dsimp only
        rw [if_neg hne, if_neg (by rw [hco.1]; exact Bool.false_ne_true)]
      constructor
      · constructor
        · intro h
          rw [hmodel] at h
          simp [exIsErr] at h
        · intro h
          rcases h with h | ⟨d2, hd2, hne2⟩
          · exact Option.noConfusion h
          · injection hd2 with he
            subst he
            exact absurd hs hne2
      · intro d2 hd2 _
        injection hd2 with he
        subst he
        exact ⟨(restoreCore mons (restoreTargets d) current current2 lm et de p1 f1 p2 f2
          co lo).1,
          (restoreCore mons (restoreTargets d) current current2 lm et de p1 f1 p2 f2
            co lo).2, by rw [hmodel], hco.2⟩
    · have hmodel : restore_layout_model (some d) mons current current2 lm et de p1 f1 p2 f2
          co lo = .error "Unrecognised layout schema" := by
        unfold restore_layout_model
        dsimp only
        rw [if_pos hs]
      constructor
      · constructor
        · intro _
          exact Or.inr ⟨d, rfl, hs⟩
        · intro _
          rw [hmodel]
          rfl
      · intro d2 hd2 hs2
        injection hd2 with he
        subst he
        exact absurd hs2 hs

/-- A syntactically valid v2-era layout whose single entry carries a
five-element `restore_rect`. -/
def c4file : LayoutFile :=
  { schema := SCHEMA,
    windows := [{ process_name := "notepad.exe", exe := "C:/n.exe",
                  restore_rect := [0, 0, 100, 100, 0] }] }

/-- A live window matching that entry by exe (score 75 ≥ 40). -/
def c4cur : List Win :=
  [{ process_name := "notepad.exe", exe := "C:/n.exe", hwnd := 7, title := "x" }]

/-- C4 counterexample: the schema of `c4file` is the recognised one, yet the
restore model raises — the matched entry's five-element rect list makes the
`left, top, right, bottom = rr` unpack (which sits before the `try`) raise an
uncaught `ValueError`, aborting the whole restore. -/
theorem C4_counterexample :
    sTrim c4file.schema = SCHEMA ∧
    exIsErr (restore_layout_model (some c4file) [] c4cur [] false false false
      (fun _ => true) (fun _ => true) (fun _ => true) (fun _ => true) (fun _ => true)
      (fun _ => true)) = true := by
  constructor
  · decide
  · decide

/-- The same layout with a four-element rect list restores without error. -/
def c4okfile : LayoutFile :=
  { schema := SCHEMA,
    windows := [{ process_name := "notepad.exe", exe := "C:/n.exe",
                  restore_rect := [0, 0, 100, 100] }] }

theorem C4_restore_fatal_amended_witness :
    ∃ st n, restore_layout_model (some c4okfile) [] c4cur [] false false false
        (fun _ => true) (fun _ => true) (fun _ => true) (fun _ => true) (fun _ => true)
        (fun _ => true) = .ok (st, n) ∧
      st.applied + st.skipped = (restoreTargets c4okfile).length :=
  (C4_restore_fatal_amended (some c4okfile) [] c4cur [] false false false
    (fun _ => true) (fun _ => true) (fun _ => true) (fun _ => true) (fun _ => true)
    (fun _ => true)
    (by intro d hd; injection hd with he; subst he; decide)).2 c4okfile rfl (by decide)

end WinLayout
